import Mathlib

/-!
Verification of the neomutt mbox/MMDF mailbox engine and the notmuch
query-window component against their specification.

The definitions below are shallow embeddings of the C source:
`mbox_lock_mailbox`, `mbox_mbox_check`, `reopen_mailbox`,
`mbox_mbox_sync`, `mbox_parse_mailbox`, `mmdf_parse_mailbox` from the
mbox backend, and `query_window_reset`, `windowed_query_from_query`,
`get_query_string`, `nm_query_window_forward`, `nm_query_window_backward`
from the notmuch backend.  External collaborators (the rfc822 header
parser, the header comparison, the message copy routine, file locking,
stat) are modelled as oracle parameters.  Machine integers are modelled
as `Int`/`Nat`.
-/

namespace Nm

/-- query_window_check_timebase: the five accepted timebase strings. -/
def query_window_check_timebase (timebase : String) : Bool :=
  timebase = "hour" || timebase = "day" || timebase = "week" ||
  timebase = "month" || timebase = "year"

/-- Global notmuch query-window configuration state:
`nm_query_window_duration`, `nm_query_window_timebase`,
`nm_query_window_current_position`, `nm_query_window_current_search`. -/
structure NmState where
  duration : Int
  timebase : String
  position : Int
  currentSearch : Option String
  deriving Repr, DecidableEq

/-- query_window_reset: sets nm_query_window_current_position to 0. -/
def query_window_reset (s : NmState) : NmState :=
  { s with position := 0 }

/-- List-level check that `pat` is a leading segment of `l`. -/
def hasLead : List Char → List Char → Bool
  | [], _ => true
  | _ :: _, [] => false
  | p :: ps, c :: cs => p = c && hasLead ps cs

/-- List-level check that `pat` occurs somewhere inside `l` (strstr). -/
def hasSub (pat : List Char) : List Char → Bool
  | [] => pat.isEmpty
  | c :: cs => hasLead pat (c :: cs) || hasSub pat cs

/-- strstr on strings: does `hay` contain `pat`? -/
def strContains (hay pat : String) : Bool :=
  hasSub pat.data hay.data

/-- windowed_query_from_query: computes `beg`/`end` from the current
position, disables the window for non-positive duration (resetting the
position), resets the position if the query differs from the registered
search, rejects invalid timebases, and otherwise builds the `date:`
clause from `beg`/`end` and the registered search.  Returns the built
string (`none` when the window is not applied) and the updated state. -/
def windowed_query_from_query (query : String) (s : NmState) :
    Option String × NmState :=
  let beg := s.duration * (s.position + 1)
  let e := s.duration * s.position
  if s.duration ≤ 0 then
    (none, query_window_reset s)
  else
    let s1 :=
      if s.currentSearch = none ∨ s.currentSearch ≠ some query then
        query_window_reset s
      else s
    if ¬ query_window_check_timebase s1.timebase then
      (none, s1)
    else if e = 0 then
      (some ("date:" ++ toString beg ++ s1.timebase ++ ".. and " ++
             (s1.currentSearch.getD "(null)")), s1)
    else
      (some ("date:" ++ toString beg ++ s1.timebase ++ ".." ++ toString e ++
             s1.timebase ++ " and " ++ (s1.currentSearch.getD "(null)")), s1)

/-- The window-applying tail of get_query_string (the part run with
`window=true` once `mdata->db_query` is known): it first overwrites
`nm_query_window_current_search` with the query, then, if the query has
no `date:` part and `windowed_query_from_query` produced a string, uses
that string as the effective query. -/
def get_query_string_window (dbQuery : String) (s : NmState) :
    String × NmState :=
  let s1 := { s with currentSearch := some dbQuery }
  if ¬ strContains dbQuery "date:" then
    match windowed_query_from_query dbQuery s1 with
    | (some buf, s2) => (buf, s2)
    | (none, s2) => (dbQuery, s2)
  else (dbQuery, s1)

/-- The three operations on nm_query_window_current_position. -/
inductive WinOp
  | forward
  | backward
  | reset
  deriving Repr, DecidableEq

/-- nm_query_window_forward decrements the position unless it is 0;
nm_query_window_backward increments it; reset sets it to 0. -/
def applyWinOp (p : Int) : WinOp → Int
  | WinOp.forward => if p ≠ 0 then p - 1 else p
  | WinOp.backward => p + 1
  | WinOp.reset => 0

/-- Apply a sequence of window operations starting from position `p`. -/
def applyWinOps (p : Int) : List WinOp → Int
  | [] => p
  | op :: ops => applyWinOps (applyWinOp p op) ops

/-- A window configuration with a registered search "a", duration 2,
timebase week and position 3. -/
def sNm : NmState :=
  { duration := 2, timebase := "week", position := 3,
    currentSearch := some "a" }

end Nm

namespace Mbox

/-- Mailbox format magic: MUTT_MBOX or MUTT_MMDF. -/
inductive Magic
  | mbox
  | mmdf
  deriving Repr, DecidableEq

/-- Body: the content fields of a message record that the engine
manipulates (`content->hdr_offset`, `content->offset`,
`content->length`). -/
structure Body where
  hdr_offset : Int
  offset : Int
  length : Int
  deriving Repr, DecidableEq, Inhabited

/-- Record: one message header record of the Header Store (struct
Header restricted to the fields the mailbox engine itself reads and
writes). -/
structure Record where
  offset : Int
  index : Nat
  lines : Int
  content : Body
  deleted : Bool
  changed : Bool
  attach_del : Bool
  flagged : Bool
  replied : Bool
  old : Bool
  has_read : Bool
  purge : Bool
  tagged : Bool
  deriving Repr, DecidableEq, Inhabited

/-- Session state shared by locking and checking: the last-seen
snapshot (`mailbox->size`, `ctx->mtime`) and the lock/readonly bits. -/
structure Ctx where
  size : Int
  mtime : Int
  locked : Bool
  readonly : Bool
  magic : Magic
  deriving Repr, DecidableEq

/-- mbox_lock_mailbox: runs mutt_file_lock (whose result is the oracle
`lockRc`); on success marks the context locked; on failure with a
retrying non-exclusive request it degrades the mailbox to read-only and
reports success; otherwise it returns the failure. -/
def mbox_lock_mailbox (lockRc : Int) (excl retry : Bool) (c : Ctx) :
    Int × Ctx :=
  if lockRc = 0 then (0, { c with locked := true })
  else if retry && !excl then (0, { c with readonly := true })
  else (lockRc, c)

/-- The locking step of mbox_mbox_open_append: open in append mode then
lock with excl=1, retry=1; a lock failure closes the handle and fails
the open. -/
def mbox_mbox_open_append_lock (openOk : Bool) (lockRc : Int) (c : Ctx) :
    Int × Ctx :=
  if ¬ openOk then (-1, c)
  else
    let r := mbox_lock_mailbox lockRc true true c
    if r.1 ≠ 0 then (-1, r.2) else (0, r.2)

/-- Result classification of a stat call. -/
structure Stat where
  size : Int
  mtime : Int
  deriving Repr, DecidableEq

/-- Result statuses of mbox_mbox_check (MUTT_REOPENED, MUTT_NEW_MAIL,
MUTT_LOCKED, 0, -1). -/
inductive CheckResult
  | noChange
  | newMail
  | locked
  | reopened
  | err
  deriving Repr, DecidableEq

/-- Oracles consumed by mbox_mbox_check: the stat of the file (`none`
models a stat failure), the mutt_file_lock result used on the grown
path, the line read at the old end-of-file (`none` models fgets
failure), the effect of the suffix parse, and the reopen outcome. -/
structure CheckEnv where
  statRes : Option Stat
  lockRc : Int
  lineAtEnd : Option (List Nat)
  parseGrow : Ctx → Ctx
  reopenOk : Bool
  reopenCtx : Ctx → Ctx

/-- Outcome of mbox_mbox_check: the status, the updated session state,
whether a full reparse (reopen_mailbox) ran, whether the parser ran on
the appended suffix, and whether the mailbox was force-closed. -/
structure CheckOut where
  rc : CheckResult
  ctx : Ctx
  reparsed : Bool
  suffixParsed : Bool
  closed : Bool
  deriving Repr, DecidableEq

/-- The leading bytes of an mbox message separator: "From ". -/
def FROM5 : List Nat := [70, 114, 111, 109, 32]

/-- Does a line start with "From " (mutt_str_strncmp("From ", buf, 5))? -/
def fromLead (l : List Nat) : Bool :=
  l.take 5 = FROM5

/-- The MMDF message separator line "\x01\x01\x01\x01\n" as bytes. -/
def MMDF_SEP : List Nat := [1, 1, 1, 1, 10]

/-- Is this line a valid message-start marker at the old EOF for the
given format (the sanity test of the append-only fast path)? -/
def boundaryOk (m : Magic) (l : List Nat) : Bool :=
  match m with
  | Magic.mbox => fromLead l
  | Magic.mmdf => l = MMDF_SEP

/-- mbox_mbox_check: stat the file; if mtime and size both match the
snapshot report no change; if only the size matches record the new
mtime and report no change; if the size grew, take a non-blocking
shared lock if needed (failure is the `locked` status), verify a
message-start marker sits exactly at the old EOF and parse only the
suffix (new mail), otherwise fall through to reconciliation; if the
size shrank, reconcile; if reconciliation fails or stat fails, the
mailbox is force-closed with a fatal error. -/
def mbox_mbox_check (c : Ctx) (env : CheckEnv) : CheckOut :=
  match env.statRes with
  | none =>
      { rc := CheckResult.err, ctx := { c with locked := false },
        reparsed := false, suffixParsed := false, closed := true }
  | some st =>
      if st.mtime = c.mtime ∧ st.size = c.size then
        { rc := CheckResult.noChange, ctx := c, reparsed := false,
          suffixParsed := false, closed := false }
      else if st.size = c.size then
        { rc := CheckResult.noChange, ctx := { c with mtime := st.mtime },
          reparsed := false, suffixParsed := false, closed := false }
      else if st.size > c.size then
        -- growth: lock if not already locked
        let lockStep :=
          if ¬ c.locked then
            let r := mbox_lock_mailbox env.lockRc false false c
            if r.1 = -1 then none else some (r.2, true)
          else some (c, false)
        match lockStep with
        | none =>
            { rc := CheckResult.locked, ctx := c, reparsed := false,
              suffixParsed := false, closed := false }
        | some (c1, unlock) =>
            match env.lineAtEnd with
            | some line =>
                if boundaryOk c1.magic line then
                  let c2 := env.parseGrow c1
                  let c3 := if unlock then { c2 with locked := false } else c2
                  { rc := CheckResult.newMail, ctx := c3, reparsed := false,
                    suffixParsed := true, closed := false }
                else
                  -- modified: reconcile
                  if env.reopenOk then
                    let c2 := env.reopenCtx c1
                    let c3 := if unlock then { c2 with locked := false } else c2
                    { rc := CheckResult.reopened, ctx := c3, reparsed := true,
                      suffixParsed := false, closed := false }
                  else
                    { rc := CheckResult.err, ctx := { c1 with locked := false },
                      reparsed := true, suffixParsed := false, closed := true }
            | none =>
                if env.reopenOk then
                  let c2 := env.reopenCtx c1
                  let c3 := if unlock then { c2 with locked := false } else c2
                  { rc := CheckResult.reopened, ctx := c3, reparsed := true,
                    suffixParsed := false, closed := false }
                else
                  { rc := CheckResult.err, ctx := { c1 with locked := false },
                    reparsed := true, suffixParsed := false, closed := true }
      else
        -- size shrank: modified, reconcile
        if env.reopenOk then
          { rc := CheckResult.reopened, ctx := env.reopenCtx c,
            reparsed := true, suffixParsed := false, closed := false }
        else
          { rc := CheckResult.err, ctx := { c with locked := false },
            reparsed := true, suffixParsed := false, closed := true }

/-! ### Reconciliation Engine (reopen_mailbox flag recovery) -/

/-- Modelled from the spec: mutt_set_flag(ctx, h, MUTT_FLAG, v) — sets
the flagged bit and notes in the mailbox-changed accumulator whether
the stored state actually changed (the source of this collaborator is
outside this repository). -/
def setFlagged (v : Bool) (r : Record) (chg : Bool) : Record × Bool :=
  if r.flagged = v then (r, chg) else ({ r with flagged := v }, true)

/-- Modelled from the spec: mutt_set_flag(ctx, h, MUTT_REPLIED, v). -/
def setReplied (v : Bool) (r : Record) (chg : Bool) : Record × Bool :=
  if r.replied = v then (r, chg) else ({ r with replied := v }, true)

/-- Modelled from the spec: mutt_set_flag(ctx, h, MUTT_OLD, v). -/
def setOld (v : Bool) (r : Record) (chg : Bool) : Record × Bool :=
  if r.old = v then (r, chg) else ({ r with old := v }, true)

/-- Modelled from the spec: mutt_set_flag(ctx, h, MUTT_READ, v). -/
def setRead (v : Bool) (r : Record) (chg : Bool) : Record × Bool :=
  if r.has_read = v then (r, chg) else ({ r with has_read := v }, true)

/-- Modelled from the spec: mutt_set_flag(ctx, h, MUTT_DELETE, v). -/
def setDeleted (v : Bool) (r : Record) (chg : Bool) : Record × Bool :=
  if r.deleted = v then (r, chg) else ({ r with deleted := v }, true)

/-- Modelled from the spec: mutt_set_flag(ctx, h, MUTT_PURGE, v). -/
def setPurge (v : Bool) (r : Record) (chg : Bool) : Record × Bool :=
  if r.purge = v then (r, chg) else ({ r with purge := v }, true)

/-- Modelled from the spec: mutt_set_flag(ctx, h, MUTT_TAG, v). -/
def setTagged (v : Bool) (r : Record) (chg : Bool) : Record × Bool :=
  if r.tagged = v then (r, chg) else ({ r with tagged := v }, true)

/-- The flag transfer reopen_mailbox performs on a matched pair: copy
flagged/replied/old/read only when the old record had unsaved changes,
then always copy deleted, purge and tagged. -/
def transferFlags (o n : Record) (chg : Bool) : Record × Bool :=
  let p :=
    if o.changed then
      let p := setFlagged o.flagged n chg
      let p := setReplied o.replied p.1 p.2
      let p := setOld o.old p.1 p.2
      setRead o.has_read p.1 p.2
    else (n, chg)
  let p1 := setDeleted o.deleted p.1 p.2
  let p2 := setPurge o.purge p1.1 p1.2
  setTagged o.tagged p2.1 p2.2

/-- The first loop of reopen_mailbox's match search: scan old records
upward from index `j`, skipping already-consumed (none) entries, for
one that the strict header comparison accepts. -/
def findFrom (cmp : Record → Record → Bool) (r : Record)
    (olds : List (Option Record)) : Nat → Nat → Option Nat
  | _, 0 => none
  | j, fuel + 1 =>
      if h : j < olds.length then
        match olds.get ⟨j, h⟩ with
        | some o => if cmp r o then some j else findFrom cmp r olds (j + 1) fuel
        | none => findFrom cmp r olds (j + 1) fuel
      else none

/-- The second loop of reopen_mailbox's match search: scan old records
upward from index `j` strictly below `stop` (and below the store
length). -/
def findBelow (cmp : Record → Record → Bool) (r : Record)
    (olds : List (Option Record)) (stop : Nat) : Nat → Nat → Option Nat
  | _, 0 => none
  | j, fuel + 1 =>
      if h : j < stop ∧ j < olds.length then
        match olds.get ⟨j, h.2⟩ with
        | some o =>
            if cmp r o then some j else findBelow cmp r olds stop (j + 1) fuel
        | none => findBelow cmp r olds stop (j + 1) fuel
      else none

/-- The full match search for new record `r` at position `i`: first at
indices at or after `i`, then at indices before `i`. -/
def reopenFind (cmp : Record → Record → Bool) (r : Record)
    (olds : List (Option Record)) (i : Nat) : Option Nat :=
  match findFrom cmp r olds i (olds.length + 1) with
  | some j => some j
  | none => findBelow cmp r olds i 0 (olds.length + 1)

/-- State of the reconciliation loop: the old records still available
for matching (consumed ones are none), the new records being decorated
with recovered flags, the mailbox-changed accumulator, and the caller's
index hint. -/
structure RecState where
  olds : List (Option Record)
  news : List Record
  mchanged : Bool
  hint : Option Nat
  deriving Repr

/-- One iteration of the reconciliation loop for new record `i`: search
for a structural match, and on a match retarget the index hint, run the
flag transfer, and remove the matched old record from future
consideration. -/
def reopenStep (cmp : Record → Record → Bool) (s : RecState) (i : Nat) :
    RecState :=
  match s.news[i]? with
  | none => s
  | some r =>
      match reopenFind cmp r s.olds i with
      | none => s
      | some j =>
          match s.olds[j]? with
          | some (some o) =>
              let hint := if s.hint = some j then some i else s.hint
              let p := transferFlags o r s.mchanged
              { olds := s.olds.set j none, news := s.news.set i p.1,
                mchanged := p.2, hint := hint }
          | _ => s

/-- The reconciliation loop over all new records, run with fuel equal
to the number of new records. -/
def reopenLoop (cmp : Record → Record → Bool) (s : RecState) (i : Nat) :
    Nat → RecState
  | 0 => s
  | n + 1 =>
      if i < s.news.length then
        reopenLoop cmp (reopenStep cmp s i) (i + 1) n
      else s

/-- Outcome of reopen_mailbox: the status (reopened / new-mail / error),
the rebuilt Header Store and the updated index hint. -/
structure ReopenOut where
  rc : CheckResult
  news : List Record
  hint : Option Nat
  deriving Repr

/-- The initial state of the reconciliation loop: all old records
available, the new records as parsed, nothing changed yet. -/
def initRecState (olds news : List Record) (hint : Option Nat) : RecState :=
  { olds := olds.map some, news := news, mchanged := false, hint := hint }

/-- reopen_mailbox (flag-recovery portion): given the result of the
full re-parse (`none` models a parse failure), the saved old records
and the readonly bit, recover old user flags onto the new records by
one-to-one structural matching and report `reopened` when the mailbox
changed or some old record was left unmatched, `newMail` otherwise.
Readonly mailboxes discard the old records and skip flag recovery. -/
def reopen_mailbox (readonly : Bool) (cmp : Record → Record → Bool)
    (parseRes : Option (List Record)) (olds : List Record)
    (hint : Option Nat) : ReopenOut :=
  match parseRes with
  | none => { rc := CheckResult.err, news := [], hint := hint }
  | some news =>
      if readonly then
        { rc := CheckResult.newMail, news := news, hint := hint }
      else
        let s := reopenLoop cmp (initRecState olds news hint) 0 news.length
        let msgMod := s.olds.any (fun x => x.isSome)
        { rc := if s.mchanged || msgMod then CheckResult.reopened
                else CheckResult.newMail,
          news := s.news, hint := s.hint }

/-- The flag transfer as the specification words it: all seven user
flags are copied when the old record had changed=true, and only
deleted, purge and tagged otherwise. -/
def flagSpec (o n : Record) : Record :=
  if o.changed then
    { n with flagged := o.flagged, replied := o.replied, old := o.old,
             has_read := o.has_read, deleted := o.deleted,
             purge := o.purge, tagged := o.tagged }
  else
    { n with deleted := o.deleted, purge := o.purge, tagged := o.tagged }

/-! ### Rewrite/Commit Engine (mbox_mbox_sync) -/

/-- struct MUpdate: rewrite-ledger entry holding offsets, line count
and length of one record. -/
structure MUpdate where
  valid : Bool
  hdr : Int
  body : Int
  lines : Int
  length : Int
  deriving Repr, DecidableEq

/-- The all-zero MUpdate produced by calloc. -/
def MUpdate.zero : MUpdate :=
  { valid := false, hdr := 0, body := 0, lines := 0, length := 0 }

/-- Capture the pre-rewrite offsets/length/line-count of a record into
the old-offset ledger (the backup taken at the top of the sync loop). -/
def captureOf (r : Record) : MUpdate :=
  { valid := true, hdr := r.offset, body := r.content.offset,
    lines := r.lines, length := r.content.length }

/-- The fields mutt_copy_message_ctx (an external collaborator, invoked
with MUTT_CM_UPDATE and CH_UPDATE | CH_UPDATE_LEN) may rewrite in the
record while the message body is copied into the temp file. -/
structure CopyMut where
  hdr_offset : Int
  body_offset : Int
  length : Int
  lines : Int
  deriving Repr, DecidableEq

/-- Apply the copy collaborator's in-memory update to a record. -/
def applyCopyMut (m : CopyMut) (r : Record) : Record :=
  { r with lines := m.lines,
           content := { hdr_offset := m.hdr_offset, offset := m.body_offset,
                        length := m.length } }

/-- Result statuses of mbox_mbox_sync (0, -1, or the propagated
MUTT_NEW_MAIL / MUTT_REOPENED from the inner check). -/
inductive SyncRc
  | ok
  | err
  | newMail
  | reopened
  deriving Repr, DecidableEq

/-- What became of the temporary rewrite file by the end of the call. -/
inductive TempFate
  | notCreated
  | deleted
  | keptTempName
  | renamedSavefile
  deriving Repr, DecidableEq

/-- Failure-injection oracles and collaborator effects for one
mbox_mbox_sync call.  Each `...Ok`/`...FailAt` field injects the
failure of the corresponding C call; `copyMut` and `copyBytes` are the
in-memory update and the number of bytes written by the external
message-copy routine for each message index. -/
structure SyncEnv where
  reopenRWOk : Bool
  lockRc : Int
  checkRc : CheckResult
  tempCreateOk : Bool
  sepFailAt : Option Nat
  copyFailAt : Option Nat
  trailFailAt : Option Nat
  copyMut : Nat → Record → CopyMut
  copyBytes : Nat → Nat
  tempCloseOk : Bool
  statOk : Bool
  tempReopenOk : Bool
  spliceSeekOk : Bool
  spliceLine : Option (List Nat)
  seekBackOk : Bool
  streamCopyRc : Int
  ferrorFlag : Bool
  truncateOk : Bool
  mboxCloseOk : Bool
  reopenROOk : Bool
  bailReopenOk : Bool

/-- Outcome of mbox_mbox_sync: status, the Header Store afterwards, the
fate of the temp file, whether the advisory lock is still held, whether
the mailbox was force-closed, and whether the savefile fallback name
was surfaced to the user. -/
structure SyncOut where
  rc : SyncRc
  hdrs : List Record
  temp : TempFate
  locked : Bool
  closed : Bool
  reported : Bool
  deriving Repr

/-- The scan for the first deleted/changed/attach-deleted record, from
which the rewrite region starts. -/
def findFirstDirty (hdrs : List Record) : Nat → Nat → Option Nat
  | _, 0 => none
  | i, fuel + 1 =>
      if h : i < hdrs.length then
        let r := hdrs.get ⟨i, h⟩
        if r.deleted || r.changed || r.attach_del then some i
        else findFirstDirty hdrs (i + 1) fuel
      else none

/-- Result of the message-copy loop: either a failure after some prefix
of the ledger was captured (the temp file is unlinked and sync bails),
or completion with the ledger, the new-offset table and the final temp
file write position. -/
inductive LoopRes
  | fail (hdrs : List Record) (ledger : List MUpdate)
  | done (hdrs : List Record) (ledger : List MUpdate)
      (newoff : List MUpdate) (pos : Nat)
  deriving Repr

/-- The Header Store component of a loop result. -/
def LoopRes.outHdrs : LoopRes → List Record
  | LoopRes.fail h _ => h
  | LoopRes.done h _ _ _ => h

/-- The old-offset ledger component of a loop result. -/
def LoopRes.outLedger : LoopRes → List MUpdate
  | LoopRes.fail _ l => l
  | LoopRes.done _ l _ _ => l

/-- The record fields the message-copy collaborator never changes
(everything but the line count and the content fields). -/
def shadowEq (r r2 : Record) : Prop :=
  r2.offset = r.offset ∧ r2.index = r.index ∧ r2.deleted = r.deleted ∧
  r2.changed = r.changed ∧ r2.attach_del = r.attach_del ∧
  r2.flagged = r.flagged ∧ r2.replied = r.replied ∧ r2.old = r.old ∧
  r2.has_read = r.has_read ∧ r2.purge = r.purge ∧ r2.tagged = r.tagged

/-- The rewrite loop of mbox_mbox_sync: for each record from `first`,
back up its offsets into the old-offset ledger, then, unless it is
deleted, emit the MMDF leading separator if applicable, record the new
header offset (temp position plus the splice offset), copy the message
through the external copy routine (which updates the record's content
fields in memory), record the new body offset, and emit the trailing
separator/newline.  Any injected write failure unlinks the temp file
and bails. -/
def syncLoop (env : SyncEnv) (magic : Magic) (offset0 : Int) :
    Nat → List Record → Nat → Nat → List MUpdate → List MUpdate → LoopRes
  | 0, hdrs, _, pos, ledger, newoff => LoopRes.done hdrs ledger newoff pos
  | fuel + 1, hdrs, i, pos, ledger, newoff =>
      if h : i < hdrs.length then
        let r := hdrs.get ⟨i, h⟩
        let ledger1 := ledger ++ [captureOf r]
        if r.deleted then
          syncLoop env magic offset0 fuel hdrs (i + 1) pos ledger1
            (newoff ++ [MUpdate.zero])
        else if magic = Magic.mmdf ∧ env.sepFailAt = some i then
          LoopRes.fail hdrs ledger1
        else
          let pos1 := if magic = Magic.mmdf then pos + MMDF_SEP.length else pos
          let nh : Int := (pos1 : Int) + offset0
          let r1 := applyCopyMut (env.copyMut i r) r
          let hdrs1 := hdrs.set i r1
          if env.copyFailAt = some i then LoopRes.fail hdrs1 ledger1
          else
            let pos2 := pos1 + env.copyBytes i
            let nb : Int := (pos2 : Int) - r1.content.length + offset0
            if env.trailFailAt = some i then LoopRes.fail hdrs1 ledger1
            else
              let pos3 :=
                pos2 + (if magic = Magic.mmdf then MMDF_SEP.length else 1)
              syncLoop env magic offset0 fuel hdrs1 (i + 1) pos3 ledger1
                (newoff ++ [{ valid := true, hdr := nh, body := nb,
                              lines := 0, length := 0 }])
      else LoopRes.done hdrs ledger newoff pos

/-- Restore one record's offsets/length/line-count from a ledger
entry (the body of the bail loop). -/
def restoreRec (r : Record) (m : MUpdate) : Record :=
  { r with offset := m.hdr, lines := m.lines,
           content := { hdr_offset := m.hdr, offset := m.body,
                        length := m.length } }

/-- The bail restore loop, iterating from index `i`: each record whose
ledger entry exists (is valid) is restored and the loop stops at the
first missing (invalid) entry or at the end of the store. -/
def restoreGo (ledger : List MUpdate) (f : Nat) :
    Nat → List Record → Nat → List Record
  | 0, hdrs, _ => hdrs
  | fuel + 1, hdrs, i =>
      if h : i < hdrs.length then
        match ledger[i - f]? with
        | some m =>
            restoreGo ledger f fuel
              (hdrs.set i (restoreRec (hdrs.get ⟨i, h⟩) m)) (i + 1)
        | none => hdrs
      else hdrs

/-- The bail restore loop: records from `first` onward are restored
from the captured (valid) prefix of the old-offset ledger; everything
else is untouched. -/
def restoreFromLedger (hdrs : List Record) (first : Nat)
    (ledger : List MUpdate) : List Record :=
  restoreGo ledger first (hdrs.length + 1) hdrs first

/-- The bail path of mbox_mbox_sync: restore offsets from the ledger
(as far as it is valid), release the lock, reopen the original file
read-only and propagate the error; if even the reopen fails the
mailbox is force-closed. -/
def syncBail (env : SyncEnv) (rc : SyncRc) (temp : TempFate)
    (hdrs : List Record) (first : Option Nat) (ledger : List MUpdate) :
    SyncOut :=
  let hdrs1 := match first with
    | some f => restoreFromLedger hdrs f ledger
    | none => hdrs
  if env.bailReopenOk then
    { rc := rc, hdrs := hdrs1, temp := temp, locked := false,
      closed := false, reported := false }
  else
    { rc := SyncRc.err, hdrs := hdrs1, temp := temp, locked := false,
      closed := true, reported := false }

/-- The offset rewrite after a fully successful splice: surviving
records take their new header/body offsets from the new-offset table
and are renumbered contiguously from `first`. -/
def applyNewOffsets (newoff : List MUpdate) (first : Nat) :
    Nat → Nat → Nat → List Record → List Record
  | 0, _, _, hdrs => hdrs
  | fuel + 1, i, j, hdrs =>
      if h : i < hdrs.length then
        let r := hdrs.get ⟨i, h⟩
        if r.deleted then applyNewOffsets newoff first fuel (i + 1) j hdrs
        else
          let m := newoff.getD (i - first) MUpdate.zero
          let r1 :=
            { r with
              offset := m.hdr, index := j,
              content :=
                { r.content with hdr_offset := m.hdr, offset := m.body } }
          applyNewOffsets newoff first fuel (i + 1) (j + 1) (hdrs.set i r1)
      else hdrs

/-- The splice stage of mbox_mbox_sync: seek to the splice offset,
sanity-check that a boundary marker for the mailbox's format is still
present there, seek back, stream-copy the temp file over the original
(an ferror on the mailbox stream also fails it), and truncate; the
result is the C variable `i` (0 on success, -1 or the stream-copy error
otherwise). -/
def spliceResult (c : Ctx) (env : SyncEnv) : Int :=
  if ¬ env.spliceSeekOk then -1
  else
    match env.spliceLine with
    | none => -1
    | some line =>
        if c.magic = Magic.mbox ∧ ¬ fromLead line then -1
        else if c.magic = Magic.mmdf ∧ line ≠ MMDF_SEP then -1
        else if ¬ env.seekBackOk then -1
        else
          let i1 := if env.ferrorFlag then -1 else env.streamCopyRc
          if i1 = 0 then
            if env.truncateOk then 0 else -1
          else i1

/-- mbox_mbox_sync: reopen read-write, take the exclusive lock, re-run
the integrity check (aborting on external change), create the temp
file, find the first dirty record, run the rewrite loop, close the temp
file, stat the original, reopen the temp file, verify the boundary at
the splice offset, stream-copy and truncate, close handles, and on
success rewrite offsets; failures before the splice unlink the temp
file and bail through the restore path, failures from the splice stage
or the mailbox-handle close rename the temp file to the savefile
fallback and surface it, and a temp-reopen failure leaves the temp file
under its original name. -/
def mbox_mbox_sync (c : Ctx) (hdrs : List Record) (env : SyncEnv) :
    SyncOut :=
  if ¬ env.reopenRWOk then
    { rc := SyncRc.err, hdrs := hdrs, temp := TempFate.notCreated,
      locked := false, closed := true, reported := false }
  else
    let lockRes := mbox_lock_mailbox env.lockRc true true c
    if lockRes.1 = -1 then
      syncBail env SyncRc.err TempFate.notCreated hdrs none []
    else
      match env.checkRc with
      | CheckResult.newMail =>
          syncBail env SyncRc.newMail TempFate.notCreated hdrs none []
      | CheckResult.reopened =>
          syncBail env SyncRc.reopened TempFate.notCreated hdrs none []
      | CheckResult.err =>
          { rc := SyncRc.err, hdrs := hdrs, temp := TempFate.notCreated,
            locked := false, closed := true, reported := false }
      | _ =>
          if ¬ env.tempCreateOk then
            syncBail env SyncRc.err TempFate.notCreated hdrs none []
          else
            match findFirstDirty hdrs 0 (hdrs.length + 1) with
            | none =>
                -- "mbox modified, but no modified messages" bug trap
                syncBail env SyncRc.err TempFate.deleted hdrs none []
            | some first =>
                let offset0 : Int :=
                  (hdrs.getD first default).offset -
                    (if c.magic = Magic.mmdf then (MMDF_SEP.length : Int) else 0)
                match syncLoop env c.magic offset0 (hdrs.length + 1) hdrs
                    first 0 [] [] with
                | LoopRes.fail hdrs1 ledger =>
                    syncBail env SyncRc.err TempFate.deleted hdrs1
                      (some first) ledger
                | LoopRes.done hdrs1 ledger newoff _pos =>
                    if ¬ env.tempCloseOk then
                      syncBail env SyncRc.err TempFate.deleted hdrs1
                        (some first) ledger
                    else if ¬ env.statOk then
                      syncBail env SyncRc.err TempFate.deleted hdrs1
                        (some first) ledger
                    else if ¬ env.tempReopenOk then
                      { rc := SyncRc.err, hdrs := hdrs1,
                        temp := TempFate.keptTempName, locked := false,
                        closed := true, reported := false }
                    else
                      if ¬ env.mboxCloseOk ∨ spliceResult c env = -1 then
                        { rc := SyncRc.err, hdrs := hdrs1,
                          temp := TempFate.renamedSavefile, locked := false,
                          closed := true, reported := true }
                      else if ¬ env.reopenROOk then
                        { rc := SyncRc.err, hdrs := hdrs1,
                          temp := TempFate.deleted, locked := false,
                          closed := true, reported := false }
                      else
                        { rc := SyncRc.ok,
                          hdrs := applyNewOffsets newoff first
                            (hdrs1.length + 1) first first hdrs1,
                          temp := TempFate.deleted, locked := false,
                          closed := false, reported := false }

/-! ### Format Parser (mbox_parse_mailbox / mmdf_parse_mailbox)

The file is a byte sequence; fgets, fseeko and ftello are modelled on
the byte list.  mutt_rfc822_read_header is an oracle giving, per header
start position, the number of bytes it consumes and the declared
Content-Length and Lines values it recorded in the record; is_from is
an oracle predicate on the line; the SigInt flag arrives according to
an iteration-indexed oracle and is threaded through the loop state. -/

/-- The newline byte. -/
def NL : Nat := 10

/-- The line starting a byte sequence: bytes through the first newline
inclusive, or everything when no newline remains. -/
def takeLine : List Nat → List Nat
  | [] => []
  | b :: bs => if b = NL then [b] else b :: takeLine bs

/-- fgets at position `p`: the line read and the position after it;
`none` at or past end of file. -/
def fgetsAt (file : List Nat) (p : Nat) : Option (List Nat × Nat) :=
  if p < file.length then
    let line := takeLine (file.drop p)
    some (line, p + line.length)
  else none

/-- Count the newline bytes among the `len` bytes read from `loc` (the
fgetc loop validating a kept content-length). -/
def countNl (file : List Nat) (loc len : Nat) : Nat :=
  ((file.drop loc).take len).count NL

/-- Result of the external mutt_rfc822_read_header collaborator at a
given header start position: bytes consumed, the declared
content-length (`content->length`, -1 when absent) and the declared
line count (`hdr->lines`, 0 when absent). -/
structure HdrRes where
  consumed : Nat
  declLen : Int
  declLines : Int
  deriving Repr, DecidableEq

/-- Oracles consumed by the parsers: the stat at entry, the header
parser, the is_from line recognizer, and the iteration at which the
cooperative interrupt flag arrives. -/
structure ParseEnv where
  statOk : Bool
  hdrOracle : Nat → HdrRes
  isFrom : List Nat → Bool
  arrive : Nat → Bool

/-- State threaded through the parse loop: stream position, iteration
counter, the Header Store, the count of messages read by this
invocation, the counter of body lines read since the last boundary, and
the SigInt flag. -/
structure LoopSt where
  pos : Nat
  iter : Nat
  hdrs : List Record
  count : Nat
  linesCtr : Nat
  sig : Bool
  deriving Repr

/-- The fix-up applied to the most recent record when the next "From "
boundary (or the end of file) is reached at position `loc`: a still
unknown content-length becomes `loc - body_offset - 1` clamped to 0,
and a still unknown line count becomes the scan counter minus one (the
separating blank line), or 0. -/
def fixRecord (h : Record) (loc : Nat) (linesCtr : Nat) : Record :=
  let h1 :=
    if h.content.length < 0 then
      let v := (loc : Int) - h.content.offset - 1
      { h with content := { h.content with length := if v < 0 then 0 else v } }
    else h
  if h1.lines = 0 then
    { h1 with lines := if linesCtr ≠ 0 then (linesCtr : Int) - 1 else 0 }
  else h1

/-- Apply the fix-up to the most recent record of the store. -/
def fixupLast (hdrs : List Record) (loc : Nat) (linesCtr : Nat) :
    List Record :=
  match hdrs[hdrs.length - 1]? with
  | none => hdrs
  | some h => hdrs.set (hdrs.length - 1) (fixRecord h loc linesCtr)

/-- The content-length resolution of mbox_parse_mailbox for one record:
when a positive length is declared, seek past it and verify a "From "
line at the expected offset (guarding the overflow and end-of-file
cases); on mismatch discard the length (-1) and return the stream to
the body start; on success count the body's newlines when no line
count was declared, and continue at the verified boundary.  Returns
(content-length, line count, stream position). -/
def resolveLen (file : List Nat) (size : Int) (bodyOff : Nat)
    (ph : HdrRes) : Int × Int × Nat :=
  if ph.declLen > 0 then
    let tmploc : Int :=
      if ph.declLen < size then (bodyOff : Int) + ph.declLen + 1 else -1
    let discarded : Bool :=
      if 0 < tmploc ∧ tmploc < size then
        match fgetsAt file tmploc.toNat with
        | some (l2, _) => ! fromLead l2
        | none => true
      else decide (tmploc ≠ size)
    if discarded then (-1, ph.declLines, bodyOff)
    else
      let lns : Int :=
        if ph.declLines = 0 then (countNl file bodyOff ph.declLen.toNat : Int)
        else ph.declLines
      (ph.declLen, lns, tmploc.toNat)
  else (ph.declLen, ph.declLines, bodyOff)

/-- A fresh record as mutt_header_new plus the parser's field writes
produce it. -/
def newRecord (off : Nat) (idx : Nat) (lns : Int) (bodyOff : Nat)
    (len : Int) : Record :=
  { offset := (off : Int), index := idx, lines := lns,
    content := { hdr_offset := (off : Int), offset := (bodyOff : Int),
                 length := len },
    deleted := false, changed := false, attach_del := false,
    flagged := false, replied := false, old := false, has_read := false,
    purge := false, tagged := false }

/-- One iteration of the mbox parse loop: read a line (stopping at end
of file), stop if the interrupt flag is up, and otherwise either
process a message boundary (fix up the previous record, read the
header, resolve the content length) or count the line as body.  The
first component is false when the loop exits. -/
def mboxIter (file : List Nat) (env : ParseEnv) (s : LoopSt) :
    Bool × LoopSt :=
  let s := { s with sig := s.sig || env.arrive s.iter, iter := s.iter + 1 }
  match fgetsAt file s.pos with
  | none => (false, s)
  | some (line, p1) =>
      if s.sig then (false, { s with pos := p1 })
      else if env.isFrom line then
        let loc := s.pos
        let hdrs1 := if s.count > 0 then fixupLast s.hdrs loc s.linesCtr
                     else s.hdrs
        let ph := env.hdrOracle p1
        let bodyOff := p1 + ph.consumed
        let rl := resolveLen file (file.length : Int) bodyOff ph
        let s1 :=
          { s with
            pos := rl.2.2,
            hdrs := hdrs1 ++ [newRecord loc hdrs1.length rl.2.1 bodyOff rl.1],
            count := s.count + 1, linesCtr := 0 }
        (true, s1)
      else (true, { s with pos := p1, linesCtr := s.linesCtr + 1 })

/-- Run the mbox parse loop on the given fuel (the stream position
strictly increases every continued iteration, so file length plus two
always suffices). -/
def mboxRun (file : List Nat) (env : ParseEnv) : Nat → LoopSt → LoopSt
  | 0, s => s
  | n + 1, s =>
      match mboxIter file env s with
      | (true, s1) => mboxRun file env n s1
      | (false, s1) => s1

/-- The initial loop state of a parse run starting at `startPos` with
the Header Store `init`. -/
def initLoopSt (init : List Record) (startPos : Nat) : LoopSt :=
  { pos := startPos, iter := 0, hdrs := init, count := 0, linesCtr := 0,
    sig := false }

/-- Outcome of a parse: the status (0, -1 error, -2 aborted), the
Header Store, the SigInt flag at return, the SigInt value observed at
the final check, and the final stream position. -/
structure ParseOut where
  rc : Int
  hdrs : List Record
  sig : Bool
  sigSeen : Bool
  pos : Nat
  deriving Repr

/-- mbox_parse_mailbox: stat the file (failure is an error), run the
boundary-scanning loop from `startPos` appending records to `init`,
fix up the final record's length/line count from the final stream
position, and report aborted (clearing the flag) when the interrupt
flag is set. -/
def mbox_parse_mailbox (file : List Nat) (env : ParseEnv)
    (init : List Record) (startPos : Nat) : ParseOut :=
  if ¬ env.statOk then
    { rc := -1, hdrs := init, sig := false, sigSeen := false, pos := startPos }
  else
    let s := mboxRun file env (file.length + 2) (initLoopSt init startPos)
    let hdrs1 := if s.count > 0 then fixupLast s.hdrs s.pos s.linesCtr
                 else s.hdrs
    if s.sig then
      { rc := -2, hdrs := hdrs1, sig := false, sigSeen := true, pos := s.pos }
    else
      { rc := 0, hdrs := hdrs1, sig := false, sigSeen := false, pos := s.pos }

/-- The MMDF fallback body scan: repeatedly note the position and read
a line until the separator (or end of file); returns the position of
the last line noted, the line counter (starting from -1), and the
stream position. -/
def mmdfScan (file : List Nat) : Nat → Nat → Int → Nat × Int × Nat
  | 0, pos, lines => (pos, lines, pos)
  | n + 1, pos, lines =>
      match fgetsAt file pos with
      | none => (pos, lines, pos)
      | some (line, p1) =>
          if line = MMDF_SEP then (pos, lines + 1, p1)
          else mmdfScan file n p1 (lines + 1)

/-- Outcome of one MMDF outer-loop iteration: continue, stop (end of
file, truncated message, or interrupt), or the corrupt-mailbox error. -/
inductive MmdfStep
  | cont (s : LoopSt)
  | stop (s : LoopSt)
  | corrupt (s : LoopSt)

/-- The loop state carried by an MMDF outer-loop outcome. -/
def MmdfStep.st : MmdfStep → LoopSt
  | MmdfStep.cont s => s
  | MmdfStep.stop s => s
  | MmdfStep.corrupt s => s

/-- One iteration of the MMDF parse loop: read a line; stop on the
interrupt flag; a separator line starts a message (read the candidate
"From " line, rewinding when is_from rejects it; read the header;
validate a declared length by expecting the separator exactly after the
body, falling back to the line scan otherwise); any other line is the
corrupt-mailbox error. -/
def mmdfIter (file : List Nat) (env : ParseEnv) (s : LoopSt) : MmdfStep :=
  let s := { s with sig := s.sig || env.arrive s.iter, iter := s.iter + 1 }
  match fgetsAt file s.pos with
  | none => MmdfStep.stop s
  | some (line, p1) =>
      if s.sig then MmdfStep.stop { s with pos := p1 }
      else if line = MMDF_SEP then
        let loc := p1
        match fgetsAt file loc with
        | none => MmdfStep.stop { s with pos := loc }
        | some (line2, p2) =>
            let posH := if env.isFrom line2 then p2 else loc
            let ph := env.hdrOracle posH
            let bodyOff := posH + ph.consumed
            let size : Int := file.length
            let keep :=
              if ph.declLen > 0 ∧ ph.declLines > 0 then
                let tmploc : Int := (bodyOff : Int) + ph.declLen
                if 0 < tmploc ∧ tmploc < size then
                  match fgetsAt file tmploc.toNat with
                  | some (l2, p3) =>
                      if l2 = MMDF_SEP then some p3 else none
                  | none => none
                else none
              else none
            match keep with
            | some p3 =>
                let s1 :=
                  { s with
                    pos := p3,
                    hdrs := s.hdrs ++
                      [newRecord loc s.hdrs.length ph.declLines bodyOff ph.declLen],
                    count := s.count + 1 }
                MmdfStep.cont s1
            | none =>
                let sc := mmdfScan file (file.length + 2) bodyOff (-1)
                let len : Int := (sc.1 : Int) - (bodyOff : Int)
                let s1 :=
                  { s with
                    pos := sc.2.2,
                    hdrs := s.hdrs ++
                      [newRecord loc s.hdrs.length sc.2.1 bodyOff len],
                    count := s.count + 1 }
                MmdfStep.cont s1
      else MmdfStep.corrupt s

/-- Run the MMDF parse loop on the given fuel; the boolean is true when
the loop ended in the corrupt-mailbox error. -/
def mmdfRun (file : List Nat) (env : ParseEnv) : Nat → LoopSt → Bool × LoopSt
  | 0, s => (false, s)
  | n + 1, s =>
      match mmdfIter file env s with
      | MmdfStep.cont s1 => mmdfRun file env n s1
      | MmdfStep.stop s1 => (false, s1)
      | MmdfStep.corrupt s1 => (true, s1)

/-- mmdf_parse_mailbox: stat the file (failure is an error), run the
separator-framed loop from `startPos` appending records to `init`, and
report the corrupt error, or aborted (clearing the flag) when the
interrupt flag is set. -/
def mmdf_parse_mailbox (file : List Nat) (env : ParseEnv)
    (init : List Record) (startPos : Nat) : ParseOut :=
  if ¬ env.statOk then
    { rc := -1, hdrs := init, sig := false, sigSeen := false, pos := startPos }
  else
    let r := mmdfRun file env (file.length + 2) (initLoopSt init startPos)
    if r.1 then
      { rc := -1, hdrs := r.2.hdrs, sig := r.2.sig, sigSeen := r.2.sig,
        pos := r.2.pos }
    else if r.2.sig then
      { rc := -2, hdrs := r.2.hdrs, sig := false, sigSeen := true,
        pos := r.2.pos }
    else
      { rc := 0, hdrs := r.2.hdrs, sig := false, sigSeen := false,
        pos := r.2.pos }

/-! ### Concrete fixtures used by witnesses and counterexamples -/

/-- A session context for an mbox mailbox with a clean snapshot. -/
def ctx0 : Ctx :=
  { size := 100, mtime := 5, locked := false, readonly := false,
    magic := Magic.mbox }

/-- A default (all-zero, all-false) record. -/
def rec0 : Record := default

/-- A record marked deleted. -/
def recDel : Record := { (default : Record) with deleted := true }

/-- A changed record with distinctive offsets. -/
def recChg : Record :=
  { (default : Record) with
    changed := true, offset := 7, lines := 3,
    content := { hdr_offset := 7, offset := 12, length := 5 } }

/-- A sync environment injecting no failure; the external message-copy
routine rewrites each record's content length to 999 and writes 40
bytes. -/
def benignEnv : SyncEnv :=
  { reopenRWOk := true, lockRc := 0, checkRc := CheckResult.noChange,
    tempCreateOk := true, sepFailAt := none, copyFailAt := none,
    trailFailAt := none,
    copyMut := fun _ r =>
      { hdr_offset := r.content.hdr_offset, body_offset := r.content.offset,
        length := 999, lines := r.lines },
    copyBytes := fun _ => 40,
    tempCloseOk := true, statOk := true, tempReopenOk := true,
    spliceSeekOk := true, spliceLine := some FROM5, seekBackOk := true,
    streamCopyRc := 0, ferrorFlag := false, truncateOk := true,
    mboxCloseOk := true, reopenROOk := true, bailReopenOk := true }

/-- A check environment whose stat matches ctx0's snapshot. -/
def chkEnv : CheckEnv :=
  { statRes := some { size := 100, mtime := 5 }, lockRc := 0,
    lineAtEnd := none, parseGrow := id, reopenOk := true, reopenCtx := id }

/-- Structural header comparison stand-in: records match when their
offsets agree (the real mutt_header_cmp_strict is an external
collaborator). -/
def cmpOff : Record → Record → Bool := fun a b => a.offset == b.offset

/-- Old record A (tagged) for the reconciliation scenario. -/
def oldA : Record := { rec0 with offset := 10, tagged := true }

/-- Old record B (flagged), externally deleted in the scenario. -/
def oldB : Record := { rec0 with offset := 20, flagged := true }

/-- Old record C for the reconciliation scenario. -/
def oldC : Record := { rec0 with offset := 30, replied := true }

/-- New record matching oldA. -/
def newA : Record := { rec0 with offset := 10 }

/-- New record matching oldC. -/
def newC : Record := { rec0 with offset := 30 }

/-- Mbox test file A: two messages; message 1 declares content-length 6
which is validated successfully against the "From " line at offset 18;
message 2 declares nothing. -/
def fileA : List Nat :=
  [70, 114, 111, 109, 32, 97, 10,
   75, 58, 10, 10,
   98, 10, 99, 10, 100, 10,
   10,
   70, 114, 111, 109, 32, 98, 10,
   10,
   120, 10]

/-- Parse environment for fileA: the header at position 7 consumes 4
bytes and declares length 6 with no line count; all other headers
consume 1 byte and declare nothing. -/
def pEnvA : ParseEnv :=
  { statOk := true,
    hdrOracle := fun p =>
      if p = 7 then { consumed := 4, declLen := 6, declLines := 0 }
      else { consumed := 1, declLen := -1, declLines := 0 },
    isFrom := fromLead, arrive := fun _ => false }

/-- Mbox test file B: two messages; message 1's declared length 3 lands
on the padding newline at offset 13 rather than a "From " line, so the
declared length must be discarded and the boundary found by the line
scan at offset 14. -/
def fileB : List Nat :=
  [70, 114, 111, 109, 32, 97, 10,
   72, 10,
   112, 10,
   113, 10,
   10,
   70, 114, 111, 109, 32, 98, 10,
   10,
   122, 10]

/-- Parse environment for fileB with a declared line count of 7 on
message 1 (header at 7: consumes 2 bytes, declares length 3, lines 7). -/
def pEnvB : ParseEnv :=
  { statOk := true,
    hdrOracle := fun p =>
      if p = 7 then { consumed := 2, declLen := 3, declLines := 7 }
      else { consumed := 1, declLen := -1, declLines := 0 },
    isFrom := fromLead, arrive := fun _ => false }

/-- Parse environment for fileB with no declared line count on
message 1. -/
def pEnvC : ParseEnv :=
  { statOk := true,
    hdrOracle := fun p =>
      if p = 7 then { consumed := 2, declLen := 3, declLines := 0 }
      else { consumed := 1, declLen := -1, declLines := 0 },
    isFrom := fromLead, arrive := fun _ => false }

/-- Parse environment for fileB in which the cooperative interrupt
flag arrives at iteration 1. -/
def pEnvSig : ParseEnv :=
  { statOk := true,
    hdrOracle := fun p =>
      if p = 7 then { consumed := 2, declLen := 3, declLines := 7 }
      else { consumed := 1, declLen := -1, declLines := 0 },
    isFrom := fromLead, arrive := fun n => n = 1 }

/-- MMDF test file: one message framed by separator lines. -/
def fileM : List Nat :=
  [1, 1, 1, 1, 10,
   70, 114, 111, 109, 32, 97, 10,
   10,
   120, 10,
   1, 1, 1, 1, 10]

/-- Parse environment for fileM in which the interrupt flag arrives at
iteration 1, after the first message has been consumed. -/
def pEnvMSig : ParseEnv :=
  { statOk := true,
    hdrOracle := fun _ => { consumed := 1, declLen := -1, declLines := 0 },
    isFrom := fromLead, arrive := fun n => n = 1 }

end Mbox

/-! ## Theorems -/

namespace Nm

/-- Every window operation keeps a non-negative position non-negative,
so whole sequences do too. -/
theorem applyWinOps_nonneg : ∀ (ops : List WinOp) (p : Int), 0 ≤ p →
    0 ≤ applyWinOps p ops := by
  intro ops
  induction ops with
  | nil => intro p hp; simpa [applyWinOps] using hp
  | cons op t ih =>
      intro p hp
      refine ih _ ?_
      cases op <;> simp only [applyWinOp] <;> omega

/-- Claim C10: the query-window position counter stays a non-negative
integer under every sequence of window operations: forward decrements
it only when it is nonzero and leaves 0 unchanged, backward increments
it by 1, reset sets it to 0, and no sequence of forward/backward/reset
calls starting from 0 can make the position negative. -/
theorem c10_window_position_nonneg :
    (∀ p : Int, p ≠ 0 → applyWinOp p WinOp.forward = p - 1) ∧
    applyWinOp 0 WinOp.forward = 0 ∧
    (∀ p : Int, applyWinOp p WinOp.backward = p + 1) ∧
    (∀ p : Int, applyWinOp p WinOp.reset = 0) ∧
    (∀ ops : List WinOp, 0 ≤ applyWinOps 0 ops) := by
  refine ⟨?_, by decide, fun p => rfl, fun p => rfl, ?_⟩
  · intro p hp
    simp [applyWinOp, hp]
  · intro ops
    exact applyWinOps_nonneg ops 0 le_rfl

/-- Witness for C10 at concrete inputs. -/
theorem c10_window_position_nonneg_witness :
    (3 : Int) ≠ 0 ∧ applyWinOp 3 WinOp.forward = 2 :=
  ⟨by decide, c10_window_position_nonneg.1 3 (by decide)⟩

/-- Claim C9, counterexample: with registered search "a", duration 2,
timebase week and position 3, querying "b" (a changed query) does not
reset the stored position before the window is computed: the effective
query is windowed at position 3 and the stored position remains 3,
while the claim demands the position-0 window. -/
theorem c9_counterexample :
    (get_query_string_window "b" sNm).1 = "date:8week..6week and b" ∧
    (get_query_string_window "b" sNm).2.position = 3 ∧
    "date:8week..6week and b" ≠ "date:2week.. and b" := by
  refine ⟨by decide, by decide, by decide⟩

end Nm

namespace Nm

/-- The no-reset evaluation of windowed_query_from_query when the
registered search equals the query, the duration is positive and the
timebase is valid. -/
theorem windowed_query_eval (s : NmState) (q : String)
    (hcs : s.currentSearch = some q) (hd : 0 < s.duration)
    (ht : query_window_check_timebase s.timebase = true) :
    windowed_query_from_query q s =
      (some (if s.position = 0 then
               "date:" ++ toString (s.duration * (s.position + 1)) ++
                 s.timebase ++ ".. and " ++ q
             else
               "date:" ++ toString (s.duration * (s.position + 1)) ++
                 s.timebase ++ ".." ++ toString (s.duration * s.position) ++
                 s.timebase ++ " and " ++ q), s) := by
  unfold windowed_query_from_query
  rw [if_neg (by omega)]
  have h1 : ¬ (s.currentSearch = none ∨ s.currentSearch ≠ some q) := by
    simp [hcs]
  rw [if_neg h1, if_neg (by simp [ht])]
  have hz : s.duration * s.position = 0 ↔ s.position = 0 := by
    constructor
    · intro h
      rcases mul_eq_zero.mp h with h2 | h2
      · omega
      · exact h2
    · intro h; rw [h, mul_zero]
  by_cases hp : s.position = 0
  · rw [if_pos (hz.mpr hp), if_pos hp, hcs]
    rfl
  · rw [if_neg (fun h => hp (hz.mp h)), if_neg hp, hcs]
    rfl

/-- Claim C9, amended: for a positive duration D, valid timebase T and
stored position P, and a query containing no date: part, the effective
query produced by get_query_string is date:D*(P+1)T..D*PT and query
(open-ended when P = 0) computed with the position as it stood at
entry, and the stored position is unchanged — the registered search is
overwritten with the current query before the comparison, so a changed
query never triggers the reset in this path; a duration of zero or
less disables the window (returning the query unmodified) and resets
the position to 0. -/
theorem c9_windowed_query_amended :
    ∀ (s : NmState) (q : String), strContains q "date:" = false →
      (0 < s.duration → query_window_check_timebase s.timebase = true →
        (get_query_string_window q s).1 =
          (if s.position = 0 then
             "date:" ++ toString (s.duration * (s.position + 1)) ++
               s.timebase ++ ".. and " ++ q
           else
             "date:" ++ toString (s.duration * (s.position + 1)) ++
               s.timebase ++ ".." ++ toString (s.duration * s.position) ++
               s.timebase ++ " and " ++ q) ∧
        (get_query_string_window q s).2.position = s.position) ∧
      (s.duration ≤ 0 →
        (get_query_string_window q s).1 = q ∧
        (get_query_string_window q s).2.position = 0) := by
  intro s q hq
  constructor
  · intro hd ht
    have he := windowed_query_eval { s with currentSearch := some q } q rfl
      (by simpa using hd) (by simpa using ht)
    unfold get_query_string_window
    rw [if_pos (by simp [hq]), he]
    exact ⟨rfl, rfl⟩
  · intro hd
    unfold get_query_string_window
    rw [if_pos (by simp [hq])]
    unfold windowed_query_from_query
    rw [if_pos (by simpa using hd)]
    exact ⟨rfl, rfl⟩

/-- Witness for C9's amended claim at a concrete input. -/
theorem c9_windowed_query_amended_witness :
    strContains "b" "date:" = false ∧ (0 : Int) < 2 ∧
    query_window_check_timebase "week" = true ∧
    (get_query_string_window "b" sNm).1 = "date:8week..6week and b" ∧
    (get_query_string_window "b" sNm).2.position = 3 := by
  have h := (c9_windowed_query_amended sNm "b" (by decide)).1
    (by decide) (by decide)
  exact ⟨by decide, by decide, by decide, by simpa using h.1, h.2⟩

end Nm

namespace Mbox

/-- Claim C8, counterexample: a failed retrying (blocking) shared-lock
acquisition — the acquisition mbox_mbox_open demands — is not fatal:
mbox_lock_mailbox returns success (0), merely degrading the mailbox to
read-only, contradicting the claim that a demanded retrying
acquisition's failure is fatal for the call. -/
theorem c8_counterexample :
    (mbox_lock_mailbox (-1) false true ctx0).1 = 0 ∧
    (mbox_lock_mailbox (-1) false true ctx0).2.readonly = true ∧
    (0 : Int) ≠ -1 := by
  refine ⟨by decide, by decide, by decide⟩

/-- Claim C8, amended: a lock-acquisition failure is escalated iff the
caller did not ask for a retrying shared acquisition: a retrying
exclusive acquisition's failure is fatal (open-append returns -1), a
retrying shared acquisition's failure degrades the mailbox to
read-only and reports success, and a non-retrying shared failure in
the checker is surfaced as the retry-later locked status, not an
error. -/
theorem c8_lock_escalation_amended :
    ∀ (c : Ctx) (lockRc : Int) (excl retry : Bool), lockRc ≠ 0 →
      ((mbox_lock_mailbox lockRc excl retry c).1 = 0 ↔
         retry = true ∧ excl = false) ∧
      (excl = true → (mbox_lock_mailbox lockRc excl retry c).1 = lockRc) ∧
      (retry = true → excl = false →
        (mbox_lock_mailbox lockRc excl retry c).1 = 0 ∧
        (mbox_lock_mailbox lockRc excl retry c).2.readonly = true) ∧
      (mbox_mbox_open_append_lock true lockRc c).1 = -1 ∧
      (∀ (env : CheckEnv) (st : Stat), env.statRes = some st →
         c.size < st.size → c.locked = false → env.lockRc = -1 →
         (mbox_mbox_check c env).rc = CheckResult.locked) := by
  intro c lockRc excl retry h
  refine ⟨?_, ?_, ?_, ?_, ?_⟩
  · cases retry <;> cases excl <;> simp [mbox_lock_mailbox, h]
  · intro he
    subst he
    cases retry <;> simp [mbox_lock_mailbox, h]
  · intro h1 h2
    subst h1
    subst h2
    simp [mbox_lock_mailbox, h]
  · simp [mbox_mbox_open_append_lock, mbox_lock_mailbox, h]
  · intro env st hst hgt hlock hrc
    have hne : st.size ≠ c.size := by omega
    simp only [mbox_mbox_check, hst]
    rw [if_neg (fun hc => hne hc.2), if_neg hne, if_pos hgt]
    simp [hlock, mbox_lock_mailbox, hrc]

/-- Witness for C8's amended claim at concrete inputs. -/
theorem c8_lock_escalation_amended_witness :
    ((-1 : Int) ≠ 0) ∧ (mbox_lock_mailbox (-1) true true ctx0).1 = -1 ∧
    (mbox_mbox_open_append_lock true (-1) ctx0).1 = -1 :=
  ⟨by decide,
   (c8_lock_escalation_amended ctx0 (-1) true true (by decide)).2.1 rfl,
   (c8_lock_escalation_amended ctx0 (-1) true true (by decide)).2.2.2.1⟩

/-- Claim C3: the integrity checker returns no-change without any
reparse when mtime and size both match the snapshot; when only the
size matches it records the new mtime and still reports no change;
and two checks with no intervening file change both report no change
and never reparse. -/
theorem c3_check_fast_paths :
    ∀ (c : Ctx) (env : CheckEnv) (st : Stat), env.statRes = some st →
      ((st.mtime = c.mtime → st.size = c.size →
        mbox_mbox_check c env =
          { rc := CheckResult.noChange, ctx := c, reparsed := false,
            suffixParsed := false, closed := false }) ∧
       (st.size = c.size → st.mtime ≠ c.mtime →
        mbox_mbox_check c env =
          { rc := CheckResult.noChange, ctx := { c with mtime := st.mtime },
            reparsed := false, suffixParsed := false, closed := false }) ∧
       (st.size = c.size →
        (mbox_mbox_check c env).rc = CheckResult.noChange ∧
        (mbox_mbox_check c env).reparsed = false ∧
        (mbox_mbox_check c env).suffixParsed = false ∧
        (mbox_mbox_check (mbox_mbox_check c env).ctx env).rc =
          CheckResult.noChange ∧
        (mbox_mbox_check (mbox_mbox_check c env).ctx env).reparsed = false ∧
        (mbox_mbox_check (mbox_mbox_check c env).ctx env).suffixParsed =
          false)) := by
  intro c env st hst
  have heq1 : ∀ c1 : Ctx, st.mtime = c1.mtime → st.size = c1.size →
      mbox_mbox_check c1 env =
        { rc := CheckResult.noChange, ctx := c1, reparsed := false,
          suffixParsed := false, closed := false } := by
    intro c1 h1 h2
    simp only [mbox_mbox_check, hst]
    rw [if_pos ⟨h1, h2⟩]
  have heq2 : ∀ c1 : Ctx, st.size = c1.size → st.mtime ≠ c1.mtime →
      mbox_mbox_check c1 env =
        { rc := CheckResult.noChange, ctx := { c1 with mtime := st.mtime },
          reparsed := false, suffixParsed := false, closed := false } := by
    intro c1 h2 h1
    simp only [mbox_mbox_check, hst]
    rw [if_neg (fun hc => h1 hc.1), if_pos h2]
  refine ⟨heq1 c, heq2 c, ?_⟩
  intro h2
  by_cases h1 : st.mtime = c.mtime
  · have e1 := heq1 c h1 h2
    have ectx : (mbox_mbox_check c env).ctx = c := by rw [e1]
    refine ⟨by rw [e1], by rw [e1], by rw [e1], ?_, ?_, ?_⟩ <;>
      rw [ectx, e1]
  · have e1 := heq2 c h2 h1
    have ectx : (mbox_mbox_check c env).ctx = { c with mtime := st.mtime } := by
      rw [e1]
    have e2 := heq1 { c with mtime := st.mtime } rfl h2
    refine ⟨by rw [e1], by rw [e1], by rw [e1], ?_, ?_, ?_⟩ <;>
      rw [ectx, e2]

/-- Witness for C3 at a concrete context and environment. -/
theorem c3_check_fast_paths_witness :
    chkEnv.statRes = some { size := 100, mtime := 5 } ∧
    (mbox_mbox_check ctx0 chkEnv).rc = CheckResult.noChange ∧
    (mbox_mbox_check (mbox_mbox_check ctx0 chkEnv).ctx chkEnv).rc =
      CheckResult.noChange :=
  ⟨rfl,
   ((c3_check_fast_paths ctx0 chkEnv { size := 100, mtime := 5 } rfl).2.2
      (by decide)).1,
   ((c3_check_fast_paths ctx0 chkEnv { size := 100, mtime := 5 } rfl).2.2
      (by decide)).2.2.2.1⟩

end Mbox

namespace Mbox

/-- With no injected write failure, the sync rewrite loop always runs
to completion. -/
theorem syncLoop_no_fail (env : SyncEnv) (mg : Magic) (off0 : Int)
    (h1 : env.sepFailAt = none) (h2 : env.copyFailAt = none)
    (h3 : env.trailFailAt = none) :
    ∀ (fuel : Nat) (hdrs : List Record) (i pos : Nat)
      (ledger newoff : List MUpdate),
      ∃ h l n p, syncLoop env mg off0 fuel hdrs i pos ledger newoff =
        LoopRes.done h l n p := by
  intro fuel
  induction fuel with
  | zero =>
      intro hdrs i pos ledger newoff
      exact ⟨_, _, _, _, rfl⟩
  | succ fuel ih =>
      intro hdrs i pos ledger newoff
      by_cases h : i < hdrs.length
      · simp [syncLoop, dif_pos h, h1, h2, h3]
        split_ifs <;> exact ih _ _ _ _ _
      · simp only [syncLoop, dif_neg h]
        exact ⟨_, _, _, _, rfl⟩

/-- Claim C1, counterexample: a failure at the temp-file close (fclose
of the fully written temp file) does not preserve the temp file under
the fallback name: the code unlinks it before bailing out. -/
theorem c1_counterexample :
    (mbox_mbox_sync ctx0 [recDel]
      { benignEnv with tempCloseOk := false }).temp = TempFate.deleted ∧
    TempFate.deleted ≠ TempFate.renamedSavefile ∧
    (mbox_mbox_sync ctx0 [recDel]
      { benignEnv with tempCloseOk := false }).rc = SyncRc.err := by
  refine ⟨by decide, by decide, by decide⟩

/-- Claim C1, amended: when the sync fails at the splice stage (the
boundary re-verification at the splice offset, the seek back, the
stream copy, or the truncation) or at the close of the mailbox handle,
the temp file is renamed to the fallback savefile and the failure is
surfaced with that name; a failure at the temp-file close or at the
stat of the original instead deletes the temp file, and a failure
reopening the temp file leaves it under its original temp name. -/
theorem c1_temp_preserved_amended :
    ∀ (c : Ctx) (hdrs : List Record) (env : SyncEnv),
      env.reopenRWOk = true → env.lockRc = 0 →
      env.checkRc = CheckResult.noChange → env.tempCreateOk = true →
      env.sepFailAt = none → env.copyFailAt = none →
      env.trailFailAt = none → env.tempCloseOk = true →
      env.statOk = true → env.tempReopenOk = true →
      (findFirstDirty hdrs 0 (hdrs.length + 1)).isSome = true →
      (env.mboxCloseOk = false ∨ spliceResult c env = -1) →
      (mbox_mbox_sync c hdrs env).temp = TempFate.renamedSavefile ∧
      (mbox_mbox_sync c hdrs env).reported = true ∧
      (mbox_mbox_sync c hdrs env).rc = SyncRc.err := by
  intro c hdrs env h1 h2 h3 h4 h5 h6 h7 h8 h9 h10 h11 h12
  obtain ⟨first, hfirst⟩ := Option.isSome_iff_exists.mp h11
  obtain ⟨H, L, N, P, hloop⟩ :=
    syncLoop_no_fail env c.magic
      ((hdrs[first]?.getD default).offset -
        (if c.magic = Magic.mmdf then (MMDF_SEP.length : Int) else 0))
      h5 h6 h7 (hdrs.length + 1) hdrs first 0 [] []
  have hcond : (¬ env.mboxCloseOk = true ∨ spliceResult c env = -1) := by
    rcases h12 with h12 | h12
    · exact Or.inl (by simp [h12])
    · exact Or.inr h12
  simp only [mbox_mbox_sync, h1, h2, h3, h4, h8, h9, h10, hfirst,
    mbox_lock_mailbox]
  simp [hcond]
  simp [hloop, h12]

/-- Witness for C1's amended claim: a mailbox-handle close failure
after a clean splice preparation renames the temp file to the
savefile. -/
theorem c1_temp_preserved_amended_witness :
    (mbox_mbox_sync ctx0 [recChg]
      { benignEnv with mboxCloseOk := false }).temp =
        TempFate.renamedSavefile ∧
    (mbox_mbox_sync ctx0 [recChg]
      { benignEnv with mboxCloseOk := false }).reported = true ∧
    (mbox_mbox_sync ctx0 [recChg]
      { benignEnv with mboxCloseOk := false }).rc = SyncRc.err :=
  c1_temp_preserved_amended ctx0 [recChg]
    { benignEnv with mboxCloseOk := false }
    rfl rfl rfl rfl rfl rfl rfl rfl rfl rfl (by decide) (Or.inl rfl)

end Mbox

namespace Mbox

/-- shadowEq is reflexive. -/
theorem shadowEq_refl (r : Record) : shadowEq r r :=
  ⟨rfl, rfl, rfl, rfl, rfl, rfl, rfl, rfl, rfl, rfl, rfl⟩

/-- shadowEq composes. -/
theorem shadowEq_trans {a b c : Record} (h1 : shadowEq a b)
    (h2 : shadowEq b c) : shadowEq a c := by
  obtain ⟨a1, a2, a3, a4, a5, a6, a7, a8, a9, a10, a11⟩ := h1
  obtain ⟨b1, b2, b3, b4, b5, b6, b7, b8, b9, b10, b11⟩ := h2
  exact ⟨b1.trans a1, b2.trans a2, b3.trans a3, b4.trans a4, b5.trans a5,
    b6.trans a6, b7.trans a7, b8.trans a8, b9.trans a9, b10.trans a10,
    b11.trans a11⟩

/-- The message-copy collaborator's in-memory update only touches the
line count and content fields. -/
theorem shadowEq_applyCopyMut (m : CopyMut) (r : Record) :
    shadowEq r (applyCopyMut m r) :=
  ⟨rfl, rfl, rfl, rfl, rfl, rfl, rfl, rfl, rfl, rfl, rfl⟩

/-- Setting an element below the drop point leaves the drop unchanged. -/
theorem drop_set_lt {α : Type} (l : List α) (i j : Nat) (a : α)
    (h : i < j) : (l.set i a).drop j = l.drop j := by
  apply List.ext_getElem?
  intro n
  rw [List.getElem?_drop, List.getElem?_drop, List.getElem?_set_ne (by omega)]

/-- Ledger-capture invariant of the sync rewrite loop: whatever the
outcome, the old-offset ledger is extended with the captures of the
original records from index `i` on, the store keeps its length, records
outside the processed window are untouched, and records inside it
differ from the originals only in the fields the copy routine may
update. -/
theorem syncLoop_shadow (env : SyncEnv) (mg : Magic) (off0 : Int) :
    ∀ (fuel : Nat) (hdrs : List Record) (i pos : Nat)
      (ledger newoff : List MUpdate),
      ∃ k, k ≤ hdrs.length - i ∧
        (syncLoop env mg off0 fuel hdrs i pos ledger newoff).outHdrs.length =
          hdrs.length ∧
        (syncLoop env mg off0 fuel hdrs i pos ledger newoff).outLedger =
          ledger ++ ((hdrs.drop i).take k).map captureOf ∧
        (∀ m, m < i ∨ i + k ≤ m →
          (syncLoop env mg off0 fuel hdrs i pos ledger newoff).outHdrs[m]? =
            hdrs[m]?) ∧
        (∀ (m : Nat) (r : Record), hdrs[m]? = some r →
          ∃ r2,
            (syncLoop env mg off0 fuel hdrs i pos ledger newoff).outHdrs[m]? = some r2 ∧
              shadowEq r r2) := by
  intro fuel
  induction fuel with
  | zero =>
      intro hdrs i pos ledger newoff
      exact ⟨0, by omega, rfl, by simp [LoopRes.outLedger, syncLoop],
        fun m _ => rfl, fun m r hr => ⟨r, hr, shadowEq_refl r⟩⟩
  | succ fuel ih =>
      intro hdrs i pos ledger newoff
      by_cases h : i < hdrs.length
      · simp only [syncLoop, dif_pos h]
        by_cases hd : (hdrs.get ⟨i, h⟩).deleted
        · rw [if_pos hd]
          obtain ⟨k, hk, hlen, hled, hzone, hsh⟩ :=
            ih hdrs (i + 1) pos (ledger ++ [captureOf (hdrs.get ⟨i, h⟩)])
              (newoff ++ [MUpdate.zero])
          refine ⟨k + 1, by omega, hlen, ?_, ?_, hsh⟩
          · rw [hled, List.drop_eq_getElem_cons h, List.take_succ_cons,
              List.map_cons, List.append_assoc]
            rfl
          · intro m hm
            exact hzone m (by omega)
        · rw [if_neg hd]
          by_cases hsep : mg = Magic.mmdf ∧ env.sepFailAt = some i
          · rw [if_pos hsep]
            refine ⟨1, by omega, rfl, ?_, fun m _ => rfl,
              fun m r hr => ⟨r, hr, shadowEq_refl r⟩⟩
            simp only [LoopRes.outLedger, List.drop_eq_getElem_cons h,
              List.take_succ_cons, List.take_zero, List.map_cons,
              List.map_nil]
            rfl
          · rw [if_neg hsep]
            by_cases hcopy : env.copyFailAt = some i
            · rw [if_pos hcopy]
              refine ⟨1, by omega, by simp [LoopRes.outHdrs], ?_, ?_, ?_⟩
              · simp only [LoopRes.outLedger, List.drop_eq_getElem_cons h,
                  List.take_succ_cons, List.take_zero, List.map_cons,
                  List.map_nil]
                rfl
              · intro m hm
                simp only [LoopRes.outHdrs]
                exact List.getElem?_set_ne (by omega)
              · intro m r hr
                simp only [LoopRes.outHdrs]
                by_cases hmi : m = i
                · subst hmi
                  have hrr : r = hdrs.get ⟨m, h⟩ := by
                    have := List.getElem?_eq_getElem h
                    rw [List.get_eq_getElem]
                    rw [this] at hr
                    exact (Option.some_inj.mp hr).symm
                  refine ⟨_, List.getElem?_set_self h, ?_⟩
                  rw [hrr]
                  exact shadowEq_applyCopyMut _ _
                · rw [List.getElem?_set_ne (fun he => hmi he.symm)]
                  exact ⟨r, hr, shadowEq_refl r⟩
            · rw [if_neg hcopy]
              by_cases htrail : env.trailFailAt = some i
              · rw [if_pos htrail]
                refine ⟨1, by omega, by simp [LoopRes.outHdrs], ?_, ?_, ?_⟩
                · simp only [LoopRes.outLedger, List.drop_eq_getElem_cons h,
                    List.take_succ_cons, List.take_zero, List.map_cons,
                    List.map_nil]
                  rfl
                · intro m hm
                  simp only [LoopRes.outHdrs]
                  exact List.getElem?_set_ne (by omega)
                · intro m r hr
                  simp only [LoopRes.outHdrs]
                  by_cases hmi : m = i
                  · subst hmi
                    have hrr : r = hdrs.get ⟨m, h⟩ := by
                      have := List.getElem?_eq_getElem h
                      rw [List.get_eq_getElem]
                      rw [this] at hr
                      exact (Option.some_inj.mp hr).symm
                    refine ⟨_, List.getElem?_set_self h, ?_⟩
                    rw [hrr]
                    exact shadowEq_applyCopyMut _ _
                  · rw [List.getElem?_set_ne (fun he => hmi he.symm)]
                    exact ⟨r, hr, shadowEq_refl r⟩
              · rw [if_neg htrail]
                obtain ⟨k, hk, hlen, hled, hzone, hsh⟩ :=
                  ih (hdrs.set i
                      (applyCopyMut (env.copyMut i (hdrs.get ⟨i, h⟩))
                        (hdrs.get ⟨i, h⟩))) (i + 1) _ _ _
                refine ⟨k + 1, ?_, ?_, ?_, ?_, ?_⟩
                · rw [List.length_set] at hk
                  omega
                · rw [hlen, List.length_set]
                · rw [hled, drop_set_lt _ _ _ _ (by omega),
                    List.drop_eq_getElem_cons h, List.take_succ_cons,
                    List.map_cons, List.append_assoc]
                  rfl
                · intro m hm
                  rw [hzone m (by omega), List.getElem?_set_ne (by omega)]
                · intro m r hr
                  by_cases hmi : m = i
                  · subst hmi
                    have hrr : r = hdrs.get ⟨m, h⟩ := by
                      have := List.getElem?_eq_getElem h
                      rw [List.get_eq_getElem]
                      rw [this] at hr
                      exact (Option.some_inj.mp hr).symm
                    obtain ⟨r2, hr2, hs2⟩ :=
                      hsh m _ (List.getElem?_set_self h)
                    refine ⟨r2, hr2, shadowEq_trans ?_ hs2⟩
                    rw [hrr]
                    exact shadowEq_applyCopyMut _ _
                  · obtain ⟨r2, hr2, hs2⟩ := hsh m r
                      (by rw [List.getElem?_set_ne (fun he => hmi he.symm)]
                          exact hr)
                    exact ⟨r2, hr2, hs2⟩
      · simp only [syncLoop, dif_neg h]
        exact ⟨0, by omega, rfl, by simp [LoopRes.outLedger],
          fun m _ => rfl, fun m r hr => ⟨r, hr, shadowEq_refl r⟩⟩

end Mbox

namespace Mbox

/-- Pointwise description of the bail restore loop: positions from `i`
with a valid ledger entry are rewritten through restoreRec, everything
else is untouched. -/
theorem restoreGo_getElem (ledger : List MUpdate) (f : Nat) :
    ∀ (fuel : Nat) (hdrs : List Record) (i : Nat), f ≤ i →
      hdrs.length ≤ i + fuel →
      ∀ m : Nat, (restoreGo ledger f fuel hdrs i)[m]? =
        if i ≤ m ∧ m - f < ledger.length ∧ m < hdrs.length then
          (hdrs[m]?).map
            (fun r => restoreRec r (ledger.getD (m - f) MUpdate.zero))
        else hdrs[m]? := by
  intro fuel
  induction fuel with
  | zero =>
      intro hdrs i hf hlen m
      rw [if_neg (by omega)]
      rfl
  | succ fuel ih =>
      intro hdrs i hf hlen m
      simp only [restoreGo]
      by_cases h : i < hdrs.length
      · rw [dif_pos h]
        cases hl : ledger[i - f]? with
        | none =>
            have hge : ledger.length ≤ i - f := by
              by_contra hlt
              rw [List.getElem?_eq_getElem (by omega)] at hl
              cases hl
            rw [if_neg (by omega)]
        | some mu =>
            have hif : i - f < ledger.length := by
              rcases List.getElem?_eq_some.mp hl with ⟨hh, _⟩
              exact hh
            have := ih (hdrs.set i (restoreRec (hdrs.get ⟨i, h⟩) mu)) (i + 1)
              (by omega) (by rw [List.length_set]; omega) m
            rw [this]
            rcases Nat.lt_trichotomy m i with hmi | hmi | hmi
            · rw [if_neg (by omega), if_neg (by omega),
                List.getElem?_set_ne (by omega)]
            · subst hmi
              rw [if_neg (by omega),
                if_pos ⟨le_refl m, hif, h⟩, List.getElem?_set_self h,
                List.getElem?_eq_getElem h]
              have hgd : ledger.getD (m - f) MUpdate.zero = mu := by
                rw [List.getD_eq_getElem?_getD, hl]
                rfl
              rw [hgd]
              rfl
            · rw [List.length_set, List.getElem?_set_ne (by omega)]
              by_cases hc : m - f < ledger.length ∧ m < hdrs.length
              · rw [if_pos ⟨by omega, hc.1, hc.2⟩,
                  if_pos ⟨by omega, hc.1, hc.2⟩]
              · rw [if_neg (by omega), if_neg (by omega)]
      · rw [dif_neg h]
        rw [if_neg (by omega)]

/-- Restoration after a bail: given the shadow relation between the
original store and the loop's output, and the ledger of captures,
restoring from the ledger returns every record to its pre-sync
offsets, length, line count and flags. -/
theorem restore_recovers (hdrs H : List Record) (f k : Nat)
    (L : List MUpdate)
    (hk : k ≤ hdrs.length - f)
    (hlen : H.length = hdrs.length)
    (hled : L = ((hdrs.drop f).take k).map captureOf)
    (hzone : ∀ m : Nat, m < f ∨ f + k ≤ m → H[m]? = hdrs[m]?)
    (hshadow : ∀ (m : Nat) (r : Record), hdrs[m]? = some r →
      ∃ r2, H[m]? = some r2 ∧ shadowEq r r2) :
    ∀ (m : Nat) (r : Record), hdrs[m]? = some r →
      ∃ r2, (restoreFromLedger H f L)[m]? = some r2 ∧
        r2.offset = r.offset ∧ r2.content.offset = r.content.offset ∧
        r2.lines = r.lines ∧ r2.content.length = r.content.length ∧
        r2.deleted = r.deleted ∧ r2.changed = r.changed ∧
        r2.attach_del = r.attach_del ∧ r2.flagged = r.flagged ∧
        r2.replied = r.replied ∧ r2.old = r.old ∧
        r2.has_read = r.has_read ∧ r2.purge = r.purge ∧
        r2.tagged = r.tagged ∧ r2.index = r.index := by
  have hllen : L.length = k := by
    rw [hled, List.length_map, List.length_take, List.length_drop]
    omega
  intro m r hr
  have hmlen : m < hdrs.length := by
    rcases List.getElem?_eq_some.mp hr with ⟨hh, _⟩
    exact hh
  have hres := restoreGo_getElem L f (H.length + 1) H f (le_refl f)
    (by omega) m
  rw [restoreFromLedger] at *
  by_cases hin : f ≤ m ∧ m < f + k
  · -- restored from the ledger capture of the original record
    have hLm : L.getD (m - f) MUpdate.zero = captureOf r := by
      rw [List.getD_eq_getElem?_getD, hled, List.getElem?_map,
        List.getElem?_take, if_pos (by omega), List.getElem?_drop]
      have : f + (m - f) = m := by omega
      rw [this, hr]
      rfl
    obtain ⟨r2, hr2, hs⟩ := hshadow m r hr
    rw [hres, if_pos ⟨hin.1, by omega, by omega⟩, hr2, hLm]
    obtain ⟨s1, s2, s3, s4, s5, s6, s7, s8, s9, s10, s11⟩ := hs
    exact ⟨restoreRec r2 (captureOf r), rfl, rfl, rfl, rfl, rfl, s3, s4,
      s5, s6, s7, s8, s9, s10, s11, s2⟩
  · -- untouched: either before the rewrite region or past the ledger
    have hout : H[m]? = hdrs[m]? := hzone m (by omega)
    rw [hres]
    by_cases hc : f ≤ m ∧ m - f < L.length ∧ m < H.length
    · exfalso
      omega
    · rw [if_neg (fun hcc => hc ⟨hcc.1, hcc.2.1, hcc.2.2⟩), hout, hr]
      exact ⟨r, rfl, rfl, rfl, rfl, rfl, rfl, rfl, rfl, rfl, rfl, rfl,
        rfl, rfl, rfl, rfl⟩

end Mbox

namespace Mbox

/-- The error bail with a working reopen restores from the ledger,
releases the lock and leaves the mailbox open. -/
theorem syncBail_err_spec (env : SyncEnv) (h5 : env.bailReopenOk = true)
    (H : List Record) (f : Nat) (L : List MUpdate) :
    syncBail env SyncRc.err TempFate.deleted H (some f) L =
      { rc := SyncRc.err, hdrs := restoreFromLedger H f L,
        temp := TempFate.deleted, locked := false, closed := false,
        reported := false } := by
  simp [syncBail, h5]

/-- Claim C2, counterexample: an injected failure after the ledger has
been fully captured — here the boundary re-verification at the splice
offset fails — does not take the rollback path: the record's content
length keeps the value the copy routine wrote (999) instead of the
pre-sync value (5), and the mailbox is force-closed instead of
reopened. -/
theorem c2_counterexample :
    ((mbox_mbox_sync ctx0 [recChg]
        { benignEnv with spliceLine := none }).hdrs[0]?).map
          (fun r => r.content.length) = some 999 ∧
    recChg.content.length = 5 ∧ (999 : Int) ≠ 5 ∧
    (mbox_mbox_sync ctx0 [recChg]
      { benignEnv with spliceLine := none }).closed = true := by
  refine ⟨by decide, by decide, by decide, by decide⟩

/-- Claim C2, amended: every injected failure that reaches the
rollback path — a write failure inside the copy loop, a temp-file
close failure, or a stat failure — restores every record's header
offset, body offset, line count and content length to their pre-sync
values from the ledger, leaves all flags (deleted/changed included)
untouched, releases the lock, reopens the original file (the mailbox
is not closed) and propagates the error; failures at or after the
reopening of the temp file for the splice do not take this path. -/
theorem c2_rollback_amended :
    ∀ (c : Ctx) (hdrs : List Record) (env : SyncEnv) (first : Nat),
      env.reopenRWOk = true → env.lockRc = 0 →
      env.checkRc = CheckResult.noChange → env.tempCreateOk = true →
      env.bailReopenOk = true →
      findFirstDirty hdrs 0 (hdrs.length + 1) = some first →
      (env.tempCloseOk = false ∨ env.statOk = false ∨
        ∃ hx lx,
          syncLoop env c.magic
            ((hdrs[first]?.getD default).offset -
              (if c.magic = Magic.mmdf then (MMDF_SEP.length : Int) else 0))
            (hdrs.length + 1) hdrs first 0 [] [] = LoopRes.fail hx lx) →
      (mbox_mbox_sync c hdrs env).rc = SyncRc.err ∧
      (mbox_mbox_sync c hdrs env).locked = false ∧
      (mbox_mbox_sync c hdrs env).closed = false ∧
      (∀ (m : Nat) (r : Record), hdrs[m]? = some r →
        ∃ r2, (mbox_mbox_sync c hdrs env).hdrs[m]? = some r2 ∧
          r2.offset = r.offset ∧ r2.content.offset = r.content.offset ∧
          r2.lines = r.lines ∧ r2.content.length = r.content.length ∧
          r2.deleted = r.deleted ∧ r2.changed = r.changed ∧
          r2.attach_del = r.attach_del ∧ r2.flagged = r.flagged ∧
          r2.replied = r.replied ∧ r2.old = r.old ∧
          r2.has_read = r.has_read ∧ r2.purge = r.purge ∧
          r2.tagged = r.tagged ∧ r2.index = r.index) := by
  intro c hdrs env first h1 h2 h3 h4 h5 hfirst hfail
  obtain ⟨k, hk, hlen, hled, hzone, hsh⟩ :=
    syncLoop_shadow env c.magic
      ((hdrs[first]?.getD default).offset -
        (if c.magic = Magic.mmdf then (MMDF_SEP.length : Int) else 0))
      (hdrs.length + 1) hdrs first 0 [] []
  rw [List.nil_append] at hled
  cases hres : syncLoop env c.magic
      ((hdrs[first]?.getD default).offset -
        (if c.magic = Magic.mmdf then (MMDF_SEP.length : Int) else 0))
      (hdrs.length + 1) hdrs first 0 [] [] with
  | fail hx lx =>
      rw [hres] at hlen hled hzone hsh
      simp only [LoopRes.outHdrs, LoopRes.outLedger] at hlen hled hzone hsh
      have hmain : mbox_mbox_sync c hdrs env =
          syncBail env SyncRc.err TempFate.deleted hx (some first) lx := by
        simp only [mbox_mbox_sync, h1, h2, h3, h4, hfirst,
          mbox_lock_mailbox]
        simp
        rw [hres]
      rw [hmain, syncBail_err_spec env h5]
      exact ⟨rfl, rfl, rfl,
        restore_recovers hdrs hx first k lx hk hlen hled hzone hsh⟩
  | done hH hL hN hP =>
      rw [hres] at hlen hled hzone hsh
      simp only [LoopRes.outHdrs, LoopRes.outLedger] at hlen hled hzone hsh
      have hbail : mbox_mbox_sync c hdrs env =
          syncBail env SyncRc.err TempFate.deleted hH (some first) hL := by
        simp only [mbox_mbox_sync, h1, h2, h3, h4, hfirst,
          mbox_lock_mailbox]
        simp
        rw [hres]
        rcases hfail with hf | hf | ⟨hx, lx, hfx⟩
        · simp [hf]
        · by_cases htc : env.tempCloseOk = true
          · simp [htc, hf]
          · simp at htc
            simp [htc]
        · rw [hres] at hfx
          cases hfx
      rw [hbail, syncBail_err_spec env h5]
      exact ⟨rfl, rfl, rfl,
        restore_recovers hdrs hH first k hL hk hlen hled hzone hsh⟩

/-- Witness for C2's amended claim: a temp-file close failure on a
mailbox with one changed record whose length the copy routine had
already rewritten ends with the pre-sync length (5), the lock
released, the error propagated, and the mailbox still open. -/
theorem c2_rollback_amended_witness :
    (mbox_mbox_sync ctx0 [recChg]
      { benignEnv with tempCloseOk := false }).rc = SyncRc.err ∧
    (mbox_mbox_sync ctx0 [recChg]
      { benignEnv with tempCloseOk := false }).locked = false ∧
    (mbox_mbox_sync ctx0 [recChg]
      { benignEnv with tempCloseOk := false }).closed = false ∧
    (∃ r2, (mbox_mbox_sync ctx0 [recChg]
        { benignEnv with tempCloseOk := false }).hdrs[0]? = some r2 ∧
      r2.content.length = 5 ∧ r2.changed = true) := by
  have h := c2_rollback_amended ctx0 [recChg]
    { benignEnv with tempCloseOk := false } 0
    rfl rfl rfl rfl rfl (by decide) (Or.inl rfl)
  obtain ⟨r2, hr2, hf⟩ := h.2.2.2 0 recChg rfl
  exact ⟨h.1, h.2.1, h.2.2.1,
    ⟨r2, hr2, by rw [hf.2.2.2.1]; rfl, by rw [hf.2.2.2.2.2.1]; rfl⟩⟩

end Mbox


namespace Mbox

/-- Claim C6: reconciliation reports reopened exactly when some old
record was dropped (left unmatched after the one-to-one matching) or
some flag transfer changed state, and newMail otherwise; readonly
reconciliation always reports newMail; in the concrete scenario where
message 2 of 3 was deleted externally, reconciliation reports reopened
(messages 1 and 3 matched, message 2 dropped), and when everything
matches without any flag change it reports newMail. -/
theorem c6_reopen_status :
    (∀ (cmp : Record → Record → Bool) (news olds : List Record)
       (hint : Option Nat),
       ((reopen_mailbox false cmp (some news) olds hint).rc =
           CheckResult.reopened ↔
         ((reopenLoop cmp (initRecState olds news hint) 0
             news.length).mchanged = true ∨
          ∃ j : Nat, ∃ o : Record,
            (reopenLoop cmp (initRecState olds news hint) 0
              news.length).olds[j]? = some (some o))) ∧
       ((reopen_mailbox false cmp (some news) olds hint).rc =
           CheckResult.reopened ∨
        (reopen_mailbox false cmp (some news) olds hint).rc =
           CheckResult.newMail)) ∧
    (∀ (cmp : Record → Record → Bool) (news olds : List Record)
       (hint : Option Nat),
       (reopen_mailbox true cmp (some news) olds hint).rc =
         CheckResult.newMail) ∧
    (reopen_mailbox false cmpOff (some [newA, newC]) [oldA, oldB, oldC]
        none).rc = CheckResult.reopened ∧
    (reopen_mailbox false cmpOff (some [{ rec0 with offset := 10 }])
        [{ rec0 with offset := 10 }] none).rc = CheckResult.newMail := by
  have hany : ∀ (l : List (Option Record)),
      ((l.any fun x => x.isSome) = true ↔
        ∃ j : Nat, ∃ o, l[j]? = some (some o)) := by
    intro l
    rw [List.any_eq_true]
    constructor
    · rintro ⟨x, hx, hsome⟩
      obtain ⟨o, rfl⟩ := Option.isSome_iff_exists.mp hsome
      obtain ⟨j, hj⟩ := List.mem_iff_getElem?.mp hx
      exact ⟨j, o, hj⟩
    · rintro ⟨j, o, hj⟩
      exact ⟨some o, List.mem_iff_getElem?.mpr ⟨j, hj⟩, rfl⟩
  refine ⟨?_, ?_, by decide, by decide⟩
  · intro cmp news olds hint
    simp only [reopen_mailbox, Bool.false_eq_true, if_false]
    constructor
    · constructor
      · intro hrc
        by_cases hcond : ((reopenLoop cmp (initRecState olds news hint) 0
            news.length).mchanged ||
            ((reopenLoop cmp (initRecState olds news hint) 0
              news.length).olds.any fun x => x.isSome)) = true
        · rw [Bool.or_eq_true] at hcond
          rcases hcond with hm | ha
          · exact Or.inl hm
          · exact Or.inr ((hany _).mp ha)
        · rw [if_neg hcond] at hrc
          cases hrc
      · intro hor
        have hcond : ((reopenLoop cmp (initRecState olds news hint) 0
            news.length).mchanged ||
            ((reopenLoop cmp (initRecState olds news hint) 0
              news.length).olds.any fun x => x.isSome)) = true := by
          rw [Bool.or_eq_true]
          rcases hor with hm | he
          · exact Or.inl hm
          · exact Or.inr ((hany _).mpr he)
        rw [if_pos hcond]
    · split_ifs with hcond
      · exact Or.inl rfl
      · exact Or.inr rfl
  · intro cmp news olds hint
    rfl

end Mbox

namespace Mbox

/-- Witness for C6 at the concrete external-deletion scenario. -/
theorem c6_reopen_status_witness :
    (reopen_mailbox false cmpOff (some [newA, newC]) [oldA, oldB, oldC]
        none).rc = CheckResult.reopened ∨
    (reopen_mailbox false cmpOff (some [newA, newC]) [oldA, oldB, oldC]
        none).rc = CheckResult.newMail :=
  (c6_reopen_status.1 cmpOff [newA, newC] [oldA, oldB, oldC] none).2

/-- The flagged setter writes the requested value. -/
theorem setFlagged_fst (v : Bool) (r : Record) (chg : Bool) :
    (setFlagged v r chg).1 = { r with flagged := v } := by
  unfold setFlagged
  split_ifs with h
  · cases r
    simp only at h
    simp [h]
  · rfl

/-- The replied setter writes the requested value. -/
theorem setReplied_fst (v : Bool) (r : Record) (chg : Bool) :
    (setReplied v r chg).1 = { r with replied := v } := by
  unfold setReplied
  split_ifs with h
  · cases r
    simp only at h
    simp [h]
  · rfl

/-- The old-flag setter writes the requested value. -/
theorem setOld_fst (v : Bool) (r : Record) (chg : Bool) :
    (setOld v r chg).1 = { r with old := v } := by
  unfold setOld
  split_ifs with h
  · cases r
    simp only at h
    simp [h]
  · rfl

/-- The read setter writes the requested value. -/
theorem setRead_fst (v : Bool) (r : Record) (chg : Bool) :
    (setRead v r chg).1 = { r with has_read := v } := by
  unfold setRead
  split_ifs with h
  · cases r
    simp only at h
    simp [h]
  · rfl

/-- The deleted setter writes the requested value. -/
theorem setDeleted_fst (v : Bool) (r : Record) (chg : Bool) :
    (setDeleted v r chg).1 = { r with deleted := v } := by
  unfold setDeleted
  split_ifs with h
  · cases r
    simp only at h
    simp [h]
  · rfl

/-- The purge setter writes the requested value. -/
theorem setPurge_fst (v : Bool) (r : Record) (chg : Bool) :
    (setPurge v r chg).1 = { r with purge := v } := by
  unfold setPurge
  split_ifs with h
  · cases r
    simp only at h
    simp [h]
  · rfl

/-- The tagged setter writes the requested value. -/
theorem setTagged_fst (v : Bool) (r : Record) (chg : Bool) :
    (setTagged v r chg).1 = { r with tagged := v } := by
  unfold setTagged
  split_ifs with h
  · cases r
    simp only at h
    simp [h]
  · rfl

/-- The implemented flag transfer computes exactly the specification's
flag copy: all seven user flags when the old record was changed, only
deleted/purge/tagged otherwise. -/
theorem transferFlags_fst (o n : Record) (chg : Bool) :
    (transferFlags o n chg).1 = flagSpec o n := by
  by_cases hc : o.changed
  · simp [transferFlags, flagSpec, hc, setFlagged_fst, setReplied_fst,
      setOld_fst, setRead_fst, setDeleted_fst, setPurge_fst, setTagged_fst]
  · simp [transferFlags, flagSpec, hc, setDeleted_fst, setPurge_fst,
      setTagged_fst]

end Mbox

namespace Mbox

/-- First-match characterization of the upward search loop: with
enough fuel, a hit is the least available matching index at or after
`j`, and a miss means no available record at or after `j` matches. -/
theorem findFrom_spec (cmp : Record → Record → Bool) (r : Record)
    (olds : List (Option Record)) :
    ∀ (fuel j : Nat), olds.length ≤ j + fuel →
      (∀ k, findFrom cmp r olds j fuel = some k →
        j ≤ k ∧ (∃ o, olds[k]? = some (some o) ∧ cmp r o = true) ∧
        ∀ (m : Nat) (o : Record), j ≤ m → m < k →
          olds[m]? = some (some o) → cmp r o = false) ∧
      (findFrom cmp r olds j fuel = none →
        ∀ (m : Nat) (o : Record), j ≤ m → m < olds.length →
          olds[m]? = some (some o) → cmp r o = false) := by
  intro fuel
  induction fuel with
  | zero =>
      intro j hfuel
      simp only [findFrom]
      refine ⟨?_, ?_⟩
      · intro k hk
        cases hk
      · intro _ m o hm1 hm2 _
        omega
  | succ fuel ih =>
      intro j hfuel
      by_cases h : j < olds.length
      · have hget : olds[j]? = some (olds.get ⟨j, h⟩) := by
          rw [List.getElem?_eq_getElem h]
          rfl
        cases hoj : olds.get ⟨j, h⟩ with
        | some o =>
            rw [hoj] at hget
            simp only [findFrom, dif_pos h, hoj]
            by_cases hcmp : cmp r o
            · rw [if_pos hcmp]
              refine ⟨fun k hk => ?_, fun hk => by cases hk⟩
              obtain rfl : j = k := Option.some_inj.mp hk
              exact ⟨le_refl j, ⟨o, hget, hcmp⟩,
                fun m o2 hm1 hm2 _ => absurd (lt_of_le_of_lt hm1 hm2)
                  (lt_irrefl j)⟩
            · rw [if_neg hcmp]
              obtain ⟨ihs, ihn⟩ := ih (j + 1) (by omega)
              refine ⟨fun k hk => ?_, fun hk m o2 hm1 hm2 hmo => ?_⟩
              · obtain ⟨hk1, hk2, hk3⟩ := ihs k hk
                refine ⟨by omega, hk2, fun m o2 hm1 hm2 hmo => ?_⟩
                by_cases hmj : m = j
                · subst hmj
                  rw [hget] at hmo
                  obtain rfl : o = o2 :=
                    Option.some_inj.mp (Option.some_inj.mp hmo)
                  exact Bool.not_eq_true _ ▸ hcmp
                · exact hk3 m o2 (by omega) hm2 hmo
              · by_cases hmj : m = j
                · subst hmj
                  rw [hget] at hmo
                  obtain rfl : o = o2 :=
                    Option.some_inj.mp (Option.some_inj.mp hmo)
                  exact Bool.not_eq_true _ ▸ hcmp
                · exact ihn hk m o2 (by omega) hm2 hmo
        | none =>
            rw [hoj] at hget
            simp only [findFrom, dif_pos h, hoj]
            obtain ⟨ihs, ihn⟩ := ih (j + 1) (by omega)
            refine ⟨fun k hk => ?_, fun hk m o2 hm1 hm2 hmo => ?_⟩
            · obtain ⟨hk1, hk2, hk3⟩ := ihs k hk
              refine ⟨by omega, hk2, fun m o2 hm1 hm2 hmo => ?_⟩
              by_cases hmj : m = j
              · subst hmj
                rw [hget] at hmo
                cases Option.some_inj.mp hmo
              · exact hk3 m o2 (by omega) hm2 hmo
            · by_cases hmj : m = j
              · subst hmj
                rw [hget] at hmo
                cases Option.some_inj.mp hmo
              · exact ihn hk m o2 (by omega) hm2 hmo
      · simp only [findFrom, dif_neg h]
        refine ⟨?_, ?_⟩
        · intro k hk
          cases hk
        · intro _ m o hm1 hm2 _
          omega

/-- First-match characterization of the bounded downward-range search
loop (indices in [j, stop)). -/
theorem findBelow_spec (cmp : Record → Record → Bool) (r : Record)
    (olds : List (Option Record)) (stop : Nat) :
    ∀ (fuel j : Nat), min stop olds.length ≤ j + fuel →
      (∀ k, findBelow cmp r olds stop j fuel = some k →
        j ≤ k ∧ k < stop ∧ (∃ o, olds[k]? = some (some o) ∧ cmp r o = true) ∧
        ∀ (m : Nat) (o : Record), j ≤ m → m < k →
          olds[m]? = some (some o) → cmp r o = false) ∧
      (findBelow cmp r olds stop j fuel = none →
        ∀ (m : Nat) (o : Record), j ≤ m → m < stop → m < olds.length →
          olds[m]? = some (some o) → cmp r o = false) := by
  intro fuel
  induction fuel with
  | zero =>
      intro j hfuel
      simp only [findBelow]
      refine ⟨?_, ?_⟩
      · intro k hk
        cases hk
      · intro _ m o hm1 hm2 hm3 _
        omega
  | succ fuel ih =>
      intro j hfuel
      by_cases h : j < stop ∧ j < olds.length
      · have hget : olds[j]? = some (olds.get ⟨j, h.2⟩) := by
          rw [List.getElem?_eq_getElem h.2]
          rfl
        cases hoj : olds.get ⟨j, h.2⟩ with
        | some o =>
            rw [hoj] at hget
            simp only [findBelow, dif_pos h, hoj]
            by_cases hcmp : cmp r o
            · rw [if_pos hcmp]
              refine ⟨fun k hk => ?_, fun hk => by cases hk⟩
              obtain rfl : j = k := Option.some_inj.mp hk
              exact ⟨le_refl j, h.1, ⟨o, hget, hcmp⟩,
                fun m o2 hm1 hm2 _ => absurd (lt_of_le_of_lt hm1 hm2)
                  (lt_irrefl j)⟩
            · rw [if_neg hcmp]
              obtain ⟨ihs, ihn⟩ := ih (j + 1) (by omega)
              refine ⟨fun k hk => ?_, fun hk m o2 hm1 hm2 hm3 hmo => ?_⟩
              · obtain ⟨hk1, hk0, hk2, hk3⟩ := ihs k hk
                refine ⟨by omega, hk0, hk2, fun m o2 hm1 hm2 hmo => ?_⟩
                by_cases hmj : m = j
                · subst hmj
                  rw [hget] at hmo
                  obtain rfl : o = o2 :=
                    Option.some_inj.mp (Option.some_inj.mp hmo)
                  exact Bool.not_eq_true _ ▸ hcmp
                · exact hk3 m o2 (by omega) hm2 hmo
              · by_cases hmj : m = j
                · subst hmj
                  rw [hget] at hmo
                  obtain rfl : o = o2 :=
                    Option.some_inj.mp (Option.some_inj.mp hmo)
                  exact Bool.not_eq_true _ ▸ hcmp
                · exact ihn hk m o2 (by omega) hm2 hm3 hmo
        | none =>
            rw [hoj] at hget
            simp only [findBelow, dif_pos h, hoj]
            obtain ⟨ihs, ihn⟩ := ih (j + 1) (by omega)
            refine ⟨fun k hk => ?_, fun hk m o2 hm1 hm2 hm3 hmo => ?_⟩
            · obtain ⟨hk1, hk0, hk2, hk3⟩ := ihs k hk
              refine ⟨by omega, hk0, hk2, fun m o2 hm1 hm2 hmo => ?_⟩
              by_cases hmj : m = j
              · subst hmj
                rw [hget] at hmo
                cases Option.some_inj.mp hmo
              · exact hk3 m o2 (by omega) hm2 hmo
            · by_cases hmj : m = j
              · subst hmj
                rw [hget] at hmo
                cases Option.some_inj.mp hmo
              · exact ihn hk m o2 (by omega) hm2 hm3 hmo
      · simp only [findBelow, dif_neg h]
        refine ⟨?_, ?_⟩
        · intro k hk
          cases hk
        · intro _ m o hm1 hm2 hm3 _
          omega

end Mbox

namespace Mbox

/-- Claim C5: for each new record at position i, the reconciliation
searches the old records first at indices at or after i and then at
indices before i (taking the first structural match, skipping
already-consumed entries); on a match the matched old record is
removed from future consideration (one-to-one matching) and the new
record receives exactly the specification's flag transfer — all of
flagged/replied/old/read/deleted/purge/tagged when the old record had
changed=true, only deleted/purge/tagged otherwise; with no match the
step leaves the state unchanged. -/
theorem c5_reconcile_match_and_flags :
    ∀ (cmp : Record → Record → Bool) (olds : List (Option Record))
      (r : Record) (i : Nat),
      (∀ j, reopenFind cmp r olds i = some j →
        (∃ o, olds[j]? = some (some o) ∧ cmp r o = true) ∧
        ((i ≤ j ∧ ∀ (m : Nat) (o : Record), i ≤ m → m < j →
            olds[m]? = some (some o) → cmp r o = false) ∨
         (j < i ∧
          (∀ (m : Nat) (o : Record), i ≤ m → m < olds.length →
            olds[m]? = some (some o) → cmp r o = false) ∧
          (∀ (m : Nat) (o : Record), m < j →
            olds[m]? = some (some o) → cmp r o = false)))) ∧
      (reopenFind cmp r olds i = none →
        ∀ (m : Nat) (o : Record), m < olds.length →
          olds[m]? = some (some o) → cmp r o = false) ∧
      (∀ (s : RecState) (j : Nat) (o : Record), s.olds = olds →
        s.news[i]? = some r →
        reopenFind cmp r olds i = some j → olds[j]? = some (some o) →
        (reopenStep cmp s i).olds = olds.set j none ∧
        (reopenStep cmp s i).news = s.news.set i (flagSpec o r)) ∧
      (∀ (s : RecState), s.olds = olds → s.news[i]? = some r →
        reopenFind cmp r olds i = none → reopenStep cmp s i = s) := by
  intro cmp olds r i
  obtain ⟨hfromS, hfromN⟩ :=
    findFrom_spec cmp r olds (olds.length + 1) i (by omega)
  obtain ⟨hbelS, hbelN⟩ :=
    findBelow_spec cmp r olds i (olds.length + 1) 0 (by omega)
  refine ⟨?_, ?_, ?_, ?_⟩
  · intro j hj
    unfold reopenFind at hj
    cases hf : findFrom cmp r olds i (olds.length + 1) with
    | some j2 =>
        rw [hf] at hj
        obtain rfl : j2 = j := Option.some_inj.mp hj
        obtain ⟨hk1, hk2, hk3⟩ := hfromS j2 hf
        exact ⟨hk2, Or.inl ⟨hk1, hk3⟩⟩
    | none =>
        rw [hf] at hj
        obtain ⟨hk1, hk0, hk2, hk3⟩ := hbelS j hj
        exact ⟨hk2, Or.inr ⟨hk0, hfromN hf,
          fun m o hm hmo => hk3 m o (by omega) hm hmo⟩⟩
  · intro hn m o hm hmo
    unfold reopenFind at hn
    cases hf : findFrom cmp r olds i (olds.length + 1) with
    | some j2 =>
        rw [hf] at hn
        cases hn
    | none =>
        rw [hf] at hn
        by_cases hmi : m < i
        · exact hbelN hn m o (by omega) hmi hm hmo
        · exact hfromN hf m o (by omega) hm hmo
  · intro s j o hso hsr hj ho
    simp only [reopenStep, hsr, hso, hj, ho]
    refine ⟨trivial, ?_⟩
    rw [transferFlags_fst]
  · intro s hso hsr hn
    simp only [reopenStep, hsr, hso, hn]

/-- Witness for C5 at the concrete scenario: the new record matching
old record C at position 1 is found by the upward search at index 2,
old record B at index 1 does not match, and the step removes the
matched entry and copies deleted/purge/tagged only (C was not
changed). -/
theorem c5_reconcile_match_and_flags_witness :
    reopenFind cmpOff newC [some oldA, some oldB, some oldC] 1 = some 2 ∧
    (∃ o, [some oldA, some oldB, some oldC][2]? = some (some o) ∧
      cmpOff newC o = true) :=
  ⟨by decide,
   ((c5_reconcile_match_and_flags cmpOff [some oldA, some oldB, some oldC]
      newC 1).1 2 (by decide)).1⟩

end Mbox


namespace Mbox

/-- Taking a leading segment below the set position ignores the set. -/
theorem take_set_le {α : Type} (l : List α) (k n : Nat) (a : α)
    (h : n ≤ k) : (l.set k a).take n = l.take n := by
  apply List.ext_getElem?
  intro m
  by_cases hm : m < n
  · rw [List.getElem?_take, List.getElem?_take, if_pos hm, if_pos hm,
      List.getElem?_set_ne (by omega)]
  · rw [List.getElem?_take, List.getElem?_take, if_neg hm, if_neg hm]

/-- The per-record fix-up always leaves a non-negative content
length. -/
theorem fixRecord_nonneg (h : Record) (loc ctr : Nat) :
    0 ≤ (fixRecord h loc ctr).content.length := by
  simp only [fixRecord]
  split_ifs <;> simp_all

/-- The last-record fix-up keeps the store length, rewrites only the
last record, leaves that record with a non-negative content length,
and preserves any strictly shorter leading segment. -/
theorem fixupLast_spec (hdrs : List Record) (loc ctr : Nat) :
    (fixupLast hdrs loc ctr).length = hdrs.length ∧
    (∀ m : Nat, m + 1 ≠ hdrs.length →
      (fixupLast hdrs loc ctr)[m]? = hdrs[m]?) ∧
    (∀ r, (fixupLast hdrs loc ctr)[hdrs.length - 1]? = some r →
      0 ≤ r.content.length) ∧
    (∀ n : Nat, n + 1 ≤ hdrs.length →
      (fixupLast hdrs loc ctr).take n = hdrs.take n) := by
  cases hk : hdrs[hdrs.length - 1]? with
  | none =>
      have he : fixupLast hdrs loc ctr = hdrs := by
        simp only [fixupLast, hk]
      rw [he]
      refine ⟨rfl, fun _ _ => rfl, ?_, fun _ _ => rfl⟩
      intro r hr
      rw [hk] at hr
      cases hr
  | some h =>
      have hlen : 0 < hdrs.length := by
        by_contra hc
        have hnil : hdrs = [] := List.length_eq_zero.mp (by omega)
        subst hnil
        cases hk
      simp only [fixupLast, hk]
      refine ⟨List.length_set _ _ _, ?_, ?_, ?_⟩
      · intro m hm
        exact List.getElem?_set_ne (by omega)
      · intro r hr
        rw [List.getElem?_set_self (by omega)] at hr
        obtain rfl := Option.some_inj.mp hr
        exact fixRecord_nonneg h loc ctr
      · intro n hn
        exact take_set_le _ _ _ _ (by omega)

end Mbox


namespace Mbox

/-- Every entry of a store extended by one record keeps a non-negative
content length when the old entries past the initial segment had one
and the appended record has one. -/
theorem zone_append (init hdrs : List Record) (nr : Record)
    (hzone : ∀ (m : Nat) (r : Record), init.length ≤ m → hdrs[m]? = some r →
      0 ≤ r.content.length)
    (hnr : 0 ≤ nr.content.length) :
    ∀ (m : Nat) (r : Record), init.length ≤ m → (hdrs ++ [nr])[m]? = some r →
      0 ≤ r.content.length := by
  intro m r hm hget
  by_cases hlt : m < hdrs.length
  · rw [List.getElem?_append_left hlt] at hget
    exact hzone m r hm hget
  · by_cases heq : m = hdrs.length
    · subst heq
      rw [List.getElem?_concat_length] at hget
      injection hget with h
      rw [← h]
      exact hnr
    · have hone : ([nr] : List Record).length = 1 := rfl
      have hge : (hdrs ++ [nr]).length ≤ m := by
        rw [List.length_append, hone]; omega
      rw [List.getElem?_eq_none hge] at hget
      cases hget

/-- Appending one record after the conditional fix-up of the last one
preserves the length accounting, the initial segment, and the
non-negative content length of every interior record past the initial
segment. -/
theorem append_zone_step (init hdrs : List Record) (cnt loc ctr : Nat)
    (nr : Record)
    (hlen : hdrs.length = init.length + cnt)
    (htake : hdrs.take init.length = init)
    (hzone : ∀ (m : Nat) (r : Record), init.length ≤ m →
      m + 1 < hdrs.length → hdrs[m]? = some r → 0 ≤ r.content.length) :
    ((if cnt > 0 then fixupLast hdrs loc ctr else hdrs) ++ [nr]).length =
      init.length + (cnt + 1) ∧
    ((if cnt > 0 then fixupLast hdrs loc ctr else hdrs) ++ [nr]).take
      init.length = init ∧
    (∀ (m : Nat) (r : Record), init.length ≤ m →
      m + 1 < ((if cnt > 0 then fixupLast hdrs loc ctr else hdrs) ++
        [nr]).length →
      ((if cnt > 0 then fixupLast hdrs loc ctr else hdrs) ++ [nr])[m]? =
        some r →
      0 ≤ r.content.length) := by
  have hone : ([nr] : List Record).length = 1 := rfl
  obtain ⟨flen, fne, flast, ftake⟩ := fixupLast_spec hdrs loc ctr
  by_cases hc : cnt > 0
  · rw [if_pos hc]
    refine ⟨?_, ?_, ?_⟩
    · rw [List.length_append, hone, flen, hlen]
      omega
    · rw [List.take_append_of_le_length (by rw [flen]; omega),
        ftake init.length (by omega), htake]
    · intro m r hm hlt hget
      rw [List.length_append, hone, flen] at hlt
      have hmlt : m < hdrs.length := by omega
      rw [List.getElem?_append_left (by rw [flen]; omega)] at hget
      by_cases hml : m + 1 = hdrs.length
      · rw [show m = hdrs.length - 1 by omega] at hget
        exact flast r hget
      · rw [fne m hml] at hget
        exact hzone m r hm (by omega) hget
  · rw [if_neg hc]
    refine ⟨?_, ?_, ?_⟩
    · rw [List.length_append, hone, hlen]
      omega
    · rw [List.take_append_of_le_length (by omega), htake]
    · intro m r hm hlt hget
      rw [List.length_append, hone] at hlt
      omega

/-- One mbox loop iteration either leaves the store and the message
count unchanged, or fixes up the last record and appends one, bumping
the count. -/
theorem mboxIter_shape (file : List Nat) (env : ParseEnv) (s : LoopSt) :
    ((mboxIter file env s).2.hdrs = s.hdrs ∧
      (mboxIter file env s).2.count = s.count) ∨
    (∃ (loc ctr : Nat) (nr : Record),
      (mboxIter file env s).2.hdrs =
        (if s.count > 0 then fixupLast s.hdrs loc ctr else s.hdrs) ++ [nr] ∧
      (mboxIter file env s).2.count = s.count + 1) := by
  cases hf : fgetsAt file s.pos with
  | none => left; constructor <;> simp [mboxIter, hf]
  | some pr =>
      obtain ⟨line, p1⟩ := pr
      by_cases hs : (s.sig || env.arrive s.iter) = true
      · left; constructor <;> simp [mboxIter, hf, hs]
      · by_cases hfr : env.isFrom line = true
        · right
          simp only [mboxIter, hf]
          rw [if_neg hs, if_pos hfr]
          exact ⟨s.pos, s.linesCtr, _, rfl, rfl⟩
        · left; constructor <;> simp [mboxIter, hf, hs, hfr]

/-- One mbox loop iteration preserves the store invariant: length
accounting, initial segment, and non-negative content lengths of the
interior records past the initial segment. -/
theorem mboxIter_inv (file : List Nat) (env : ParseEnv) (init : List Record)
    (s : LoopSt)
    (h1 : s.hdrs.length = init.length + s.count)
    (h2 : s.hdrs.take init.length = init)
    (h3 : ∀ (m : Nat) (r : Record), init.length ≤ m →
      m + 1 < s.hdrs.length → s.hdrs[m]? = some r → 0 ≤ r.content.length) :
    (mboxIter file env s).2.hdrs.length =
      init.length + (mboxIter file env s).2.count ∧
    (mboxIter file env s).2.hdrs.take init.length = init ∧
    (∀ (m : Nat) (r : Record), init.length ≤ m →
      m + 1 < (mboxIter file env s).2.hdrs.length →
      (mboxIter file env s).2.hdrs[m]? = some r → 0 ≤ r.content.length) := by
  rcases mboxIter_shape file env s with ⟨hh, hc⟩ | ⟨loc, ctr, nr, hh, hc⟩
  · rw [hh, hc]; exact ⟨h1, h2, h3⟩
  · rw [hh, hc]
    exact append_zone_step init s.hdrs s.count loc ctr nr h1 h2 h3

/-- The mbox loop run preserves the store invariant for any fuel. -/
theorem mboxRun_inv (file : List Nat) (env : ParseEnv) (init : List Record) :
    ∀ (fuel : Nat) (s : LoopSt),
      s.hdrs.length = init.length + s.count →
      s.hdrs.take init.length = init →
      (∀ (m : Nat) (r : Record), init.length ≤ m →
        m + 1 < s.hdrs.length → s.hdrs[m]? = some r →
        0 ≤ r.content.length) →
      ((mboxRun file env fuel s).hdrs.length =
          init.length + (mboxRun file env fuel s).count ∧
        (mboxRun file env fuel s).hdrs.take init.length = init ∧
        (∀ (m : Nat) (r : Record), init.length ≤ m →
          m + 1 < (mboxRun file env fuel s).hdrs.length →
          (mboxRun file env fuel s).hdrs[m]? = some r →
          0 ≤ r.content.length)) := by
  intro fuel
  induction fuel with
  | zero =>
      intro s h1 h2 h3
      exact ⟨h1, h2, h3⟩
  | succ n ih =>
      intro s h1 h2 h3
      have hi := mboxIter_inv file env init s h1 h2 h3
      cases hstep : mboxIter file env s with
      | mk b s1 =>
          rw [hstep] at hi
          cases b
          · simp only [mboxRun, hstep]
            exact hi
          · simp only [mboxRun, hstep]
            exact ih s1 hi.1 hi.2.1 hi.2.2

/-- The initial loop state satisfies the store invariant. -/
theorem initLoopSt_inv (init : List Record) (p : Nat) :
    (initLoopSt init p).hdrs.length =
      init.length + (initLoopSt init p).count ∧
    (initLoopSt init p).hdrs.take init.length = init ∧
    (∀ (m : Nat) (r : Record), init.length ≤ m →
      m + 1 < (initLoopSt init p).hdrs.length →
      (initLoopSt init p).hdrs[m]? = some r → 0 ≤ r.content.length) := by
  refine ⟨rfl, List.take_length init, ?_⟩
  intro m r hm hlt hget
  have hh : (initLoopSt init p).hdrs = init := rfl
  rw [hh] at hlt
  omega

/-- The parsed mbox store extends the initial store: at least as long,
equal on the initial segment, and with a non-negative content length on
every record past the initial segment. -/
theorem mbox_parse_inv (file : List Nat) (env : ParseEnv)
    (init : List Record) (p : Nat) :
    init.length ≤ (mbox_parse_mailbox file env init p).hdrs.length ∧
    (mbox_parse_mailbox file env init p).hdrs.take init.length = init ∧
    (∀ (m : Nat) (r : Record), init.length ≤ m →
      (mbox_parse_mailbox file env init p).hdrs[m]? = some r →
      0 ≤ r.content.length) := by
  by_cases hst : env.statOk = true
  · obtain ⟨hi1, hi2, hi3⟩ := initLoopSt_inv init p
    obtain ⟨h1, h2, h3⟩ := mboxRun_inv file env init (file.length + 2)
      (initLoopSt init p) hi1 hi2 hi3
    have hhd : (mbox_parse_mailbox file env init p).hdrs =
        (if (mboxRun file env (file.length + 2) (initLoopSt init p)).count >
            0
         then fixupLast
            (mboxRun file env (file.length + 2) (initLoopSt init p)).hdrs
            (mboxRun file env (file.length + 2) (initLoopSt init p)).pos
            (mboxRun file env (file.length + 2) (initLoopSt init p)).linesCtr
         else (mboxRun file env (file.length + 2)
            (initLoopSt init p)).hdrs) := by
      simp only [mbox_parse_mailbox, if_neg (not_not_intro hst)]
      by_cases hsg : (mboxRun file env (file.length + 2)
          (initLoopSt init p)).sig = true
      · rw [if_pos hsg]
      · rw [if_neg hsg]
    rw [hhd]
    obtain ⟨flen, fne, flast, ftake⟩ :=
      fixupLast_spec
        (mboxRun file env (file.length + 2) (initLoopSt init p)).hdrs
        (mboxRun file env (file.length + 2) (initLoopSt init p)).pos
        (mboxRun file env (file.length + 2) (initLoopSt init p)).linesCtr
    by_cases hc : (mboxRun file env (file.length + 2)
        (initLoopSt init p)).count > 0
    · rw [if_pos hc]
      refine ⟨by rw [flen]; omega, ?_, ?_⟩
      · rw [ftake init.length (by omega)]
        exact h2
      · intro m r hm hget
        have hmlt : m < (mboxRun file env (file.length + 2)
            (initLoopSt init p)).hdrs.length := by
          by_contra hcon
          rw [List.getElem?_eq_none (by rw [flen]; omega)] at hget
          cases hget
        by_cases hml : m + 1 = (mboxRun file env (file.length + 2)
            (initLoopSt init p)).hdrs.length
        · rw [show m = (mboxRun file env (file.length + 2)
              (initLoopSt init p)).hdrs.length - 1 by omega] at hget
          exact flast r hget
        · rw [fne m hml] at hget
          exact h3 m r hm (by omega) hget
    · rw [if_neg hc]
      refine ⟨by omega, h2, ?_⟩
      intro m r hm hget
      have hmlt : m < (mboxRun file env (file.length + 2)
          (initLoopSt init p)).hdrs.length := by
        by_contra hcon
        rw [List.getElem?_eq_none (by omega)] at hget
        cases hget
      omega
  · have he : mbox_parse_mailbox file env init p =
        { rc := -1, hdrs := init, sig := false, sigSeen := false,
          pos := p } := by
      simp [mbox_parse_mailbox, hst]
    rw [he]
    refine ⟨le_refl _, List.take_length init, ?_⟩
    intro m r hm hget
    have hget2 : init[m]? = some r := hget
    have hmlt : m < init.length := by
      by_contra hcon
      rw [List.getElem?_eq_none (by omega)] at hget2
      cases hget2
    omega

/-- An observed interrupt makes the mbox parse return the aborted
status with the flag cleared. -/
theorem mbox_parse_sig (file : List Nat) (env : ParseEnv)
    (init : List Record) (p : Nat)
    (h : (mbox_parse_mailbox file env init p).sigSeen = true) :
    (mbox_parse_mailbox file env init p).rc = -2 ∧
    (mbox_parse_mailbox file env init p).sig = false := by
  by_cases hst : env.statOk = true
  · simp only [mbox_parse_mailbox, if_neg (not_not_intro hst)] at h ⊢
    by_cases hsg : (mboxRun file env (file.length + 2)
        (initLoopSt init p)).sig = true
    · rw [if_pos hsg]
      exact ⟨rfl, rfl⟩
    · rw [if_neg hsg] at h
      exact Bool.noConfusion h
  · simp only [mbox_parse_mailbox, if_pos hst] at h
    exact Bool.noConfusion h

end Mbox

namespace Mbox

/-- A successful line read returns a position at or past the start. -/
theorem fgetsAt_le (file : List Nat) (p : Nat) (l : List Nat) (q : Nat)
    (h : fgetsAt file p = some (l, q)) : p ≤ q := by
  simp only [fgetsAt] at h
  by_cases hp : p < file.length
  · rw [if_pos hp] at h
    injection h with h1
    rw [Prod.mk.injEq] at h1
    omega
  · rw [if_neg hp] at h
    cases h

/-- The MMDF fallback scan never moves its noted position backwards. -/
theorem mmdfScan_le (file : List Nat) :
    ∀ (fuel pos : Nat) (lines : Int),
      pos ≤ (mmdfScan file fuel pos lines).1 := by
  intro fuel
  induction fuel with
  | zero => intro pos lines; simp [mmdfScan]
  | succ n ih =>
      intro pos lines
      cases hf : fgetsAt file pos with
      | none => simp [mmdfScan, hf]
      | some pr =>
          obtain ⟨line, p1⟩ := pr
          by_cases hsep : line = MMDF_SEP
          · simp [mmdfScan, hf, hsep]
          · simp only [mmdfScan, hf]
            rw [if_neg hsep]
            exact le_trans (fgetsAt_le file pos line p1 hf) (ih p1 (lines + 1))

/-- One MMDF loop iteration either leaves the store and the message
count unchanged, or appends one record with a non-negative content
length, bumping the count. -/
theorem mmdfIter_shape (file : List Nat) (env : ParseEnv) (s : LoopSt) :
    ((mmdfIter file env s).st.hdrs = s.hdrs ∧
      (mmdfIter file env s).st.count = s.count) ∨
    (∃ nr : Record, 0 ≤ nr.content.length ∧
      (mmdfIter file env s).st.hdrs = s.hdrs ++ [nr] ∧
      (mmdfIter file env s).st.count = s.count + 1) := by
  cases hf : fgetsAt file s.pos with
  | none => left; constructor <;> simp [mmdfIter, MmdfStep.st, hf]
  | some pr =>
      obtain ⟨line, p1⟩ := pr
      by_cases hs : (s.sig || env.arrive s.iter) = true
      · left; constructor <;> simp [mmdfIter, MmdfStep.st, hf, hs]
      · by_cases hsep : line = MMDF_SEP
        · cases hf2 : fgetsAt file p1 with
          | none =>
              left
              constructor <;> simp [mmdfIter, MmdfStep.st, hf, hs, hsep, hf2]
          | some pr2 =>
              obtain ⟨line2, p2⟩ := pr2
              right
              simp only [mmdfIter, hf]
              rw [if_neg hs, if_pos hsep]
              simp only [hf2]
              generalize (if env.isFrom line2 then p2 else p1) = posH
              generalize env.hdrOracle posH = ph
              by_cases hg : ph.declLen > 0 ∧ ph.declLines > 0
              · rw [if_pos hg]
                by_cases hw : (0 : Int) < ((posH + ph.consumed : Nat) : Int) +
                      ph.declLen ∧
                    ((posH + ph.consumed : Nat) : Int) + ph.declLen <
                      ((file.length : Nat) : Int)
                · rw [if_pos hw]
                  cases hf3 : fgetsAt file
                      (((posH + ph.consumed : Nat) : Int) +
                        ph.declLen).toNat with
                  | none =>
                      simp only [hf3]
                      refine ⟨_, ?_, rfl, rfl⟩
                      have hsc := mmdfScan_le file (file.length + 2)
                        (posH + ph.consumed) (-1)
                      show (0 : Int) ≤
                        ((mmdfScan file (file.length + 2)
                            (posH + ph.consumed) (-1)).1 : Int) -
                          ((posH + ph.consumed : Nat) : Int)
                      omega
                  | some pr3 =>
                      obtain ⟨l3, p3⟩ := pr3
                      simp only [hf3]
                      by_cases hsep3 : l3 = MMDF_SEP
                      · rw [if_pos hsep3]
                        refine ⟨_, ?_, rfl, rfl⟩
                        show (0 : Int) ≤ ph.declLen
                        exact le_of_lt hg.1
                      · rw [if_neg hsep3]
                        refine ⟨_, ?_, rfl, rfl⟩
                        have hsc := mmdfScan_le file (file.length + 2)
                          (posH + ph.consumed) (-1)
                        show (0 : Int) ≤
                          ((mmdfScan file (file.length + 2)
                              (posH + ph.consumed) (-1)).1 : Int) -
                            ((posH + ph.consumed : Nat) : Int)
                        omega
                · rw [if_neg hw]
                  refine ⟨_, ?_, rfl, rfl⟩
                  have hsc := mmdfScan_le file (file.length + 2)
                    (posH + ph.consumed) (-1)
                  show (0 : Int) ≤
                    ((mmdfScan file (file.length + 2)
                        (posH + ph.consumed) (-1)).1 : Int) -
                      ((posH + ph.consumed : Nat) : Int)
                  omega
              · rw [if_neg hg]
                refine ⟨_, ?_, rfl, rfl⟩
                have hsc := mmdfScan_le file (file.length + 2)
                  (posH + ph.consumed) (-1)
                show (0 : Int) ≤
                  ((mmdfScan file (file.length + 2)
                      (posH + ph.consumed) (-1)).1 : Int) -
                    ((posH + ph.consumed : Nat) : Int)
                omega
        · left
          constructor <;> simp [mmdfIter, MmdfStep.st, hf, hs, hsep]

/-- One MMDF loop iteration preserves the store invariant. -/
theorem mmdfIter_inv (file : List Nat) (env : ParseEnv) (init : List Record)
    (s : LoopSt)
    (h1 : s.hdrs.length = init.length + s.count)
    (h2 : s.hdrs.take init.length = init)
    (h3 : ∀ (m : Nat) (r : Record), init.length ≤ m →
      s.hdrs[m]? = some r → 0 ≤ r.content.length) :
    (mmdfIter file env s).st.hdrs.length =
      init.length + (mmdfIter file env s).st.count ∧
    (mmdfIter file env s).st.hdrs.take init.length = init ∧
    (∀ (m : Nat) (r : Record), init.length ≤ m →
      (mmdfIter file env s).st.hdrs[m]? = some r →
      0 ≤ r.content.length) := by
  rcases mmdfIter_shape file env s with ⟨hh, hc⟩ | ⟨nr, hnr, hh, hc⟩
  · rw [hh, hc]; exact ⟨h1, h2, h3⟩
  · rw [hh, hc]
    have hone : ([nr] : List Record).length = 1 := rfl
    refine ⟨?_, ?_, zone_append init s.hdrs nr h3 hnr⟩
    · rw [List.length_append, hone, h1]
      omega
    · rw [List.take_append_of_le_length (by omega), h2]

/-- The MMDF loop run preserves the store invariant for any fuel. -/
theorem mmdfRun_inv (file : List Nat) (env : ParseEnv) (init : List Record) :
    ∀ (fuel : Nat) (s : LoopSt),
      s.hdrs.length = init.length + s.count →
      s.hdrs.take init.length = init →
      (∀ (m : Nat) (r : Record), init.length ≤ m →
        s.hdrs[m]? = some r → 0 ≤ r.content.length) →
      ((mmdfRun file env fuel s).2.hdrs.length =
          init.length + (mmdfRun file env fuel s).2.count ∧
        (mmdfRun file env fuel s).2.hdrs.take init.length = init ∧
        (∀ (m : Nat) (r : Record), init.length ≤ m →
          (mmdfRun file env fuel s).2.hdrs[m]? = some r →
          0 ≤ r.content.length)) := by
  intro fuel
  induction fuel with
  | zero =>
      intro s h1 h2 h3
      exact ⟨h1, h2, h3⟩
  | succ n ih =>
      intro s h1 h2 h3
      have hi := mmdfIter_inv file env init s h1 h2 h3
      cases hstep : mmdfIter file env s with
      | cont s1 =>
          rw [hstep] at hi
          simp only [MmdfStep.st] at hi
          simp only [mmdfRun, hstep]
          exact ih s1 hi.1 hi.2.1 hi.2.2
      | stop s1 =>
          rw [hstep] at hi
          simp only [MmdfStep.st] at hi
          simp only [mmdfRun, hstep]
          exact hi
      | corrupt s1 =>
          rw [hstep] at hi
          simp only [MmdfStep.st] at hi
          simp only [mmdfRun, hstep]
          exact hi

/-- The corrupt-mailbox outcome can only arise with the interrupt flag
down: the flag is checked, and stops the loop, before the framing check
that detects corruption. -/
theorem mmdfIter_corrupt_sig (file : List Nat) (env : ParseEnv)
    (s s1 : LoopSt) (h : mmdfIter file env s = MmdfStep.corrupt s1) :
    s1.sig = false := by
  cases hf : fgetsAt file s.pos with
  | none =>
      simp only [mmdfIter, hf] at h
      exact MmdfStep.noConfusion h
  | some pr =>
      obtain ⟨line, p1⟩ := pr
      by_cases hs : (s.sig || env.arrive s.iter) = true
      · simp only [mmdfIter, hf] at h
        rw [if_pos hs] at h
        exact MmdfStep.noConfusion h
      · by_cases hsep : line = MMDF_SEP
        · simp only [mmdfIter, hf] at h
          rw [if_neg hs, if_pos hsep] at h
          cases hf2 : fgetsAt file p1 with
          | none =>
              simp only [hf2] at h
              exact MmdfStep.noConfusion h
          | some pr2 =>
              obtain ⟨line2, p2⟩ := pr2
              simp only [hf2] at h
              split at h <;> exact MmdfStep.noConfusion h
        · simp only [mmdfIter, hf] at h
          rw [if_neg hs, if_neg hsep] at h
          injection h with h1
          rw [← h1]
          show (s.sig || env.arrive s.iter) = false
          simpa using hs

/-- A run that reports the corrupt-mailbox error ends with the
interrupt flag down. -/
theorem mmdfRun_corrupt_sig (file : List Nat) (env : ParseEnv) :
    ∀ (fuel : Nat) (s : LoopSt), (mmdfRun file env fuel s).1 = true →
      (mmdfRun file env fuel s).2.sig = false := by
  intro fuel
  induction fuel with
  | zero =>
      intro s h
      exact Bool.noConfusion (show false = true from h)
  | succ n ih =>
      intro s h
      cases hstep : mmdfIter file env s with
      | cont s1 =>
          simp only [mmdfRun, hstep] at h ⊢
          exact ih s1 h
      | stop s1 =>
          simp only [mmdfRun, hstep] at h
          exact Bool.noConfusion h
      | corrupt s1 =>
          simp only [mmdfRun, hstep]
          exact mmdfIter_corrupt_sig file env s s1 hstep

/-- The parsed MMDF store extends the initial store: at least as long,
equal on the initial segment, and with a non-negative content length on
every record past the initial segment. -/
theorem mmdf_parse_inv (file : List Nat) (env : ParseEnv)
    (init : List Record) (p : Nat) :
    init.length ≤ (mmdf_parse_mailbox file env init p).hdrs.length ∧
    (mmdf_parse_mailbox file env init p).hdrs.take init.length = init ∧
    (∀ (m : Nat) (r : Record), init.length ≤ m →
      (mmdf_parse_mailbox file env init p).hdrs[m]? = some r →
      0 ≤ r.content.length) := by
  by_cases hst : env.statOk = true
  · obtain ⟨h1, h2, h3⟩ := mmdfRun_inv file env init (file.length + 2)
      (initLoopSt init p) rfl (List.take_length init)
      (by
        intro m r hm hget
        have hget2 : init[m]? = some r := hget
        have hmlt : m < init.length := by
          by_contra hcon
          rw [List.getElem?_eq_none (by omega)] at hget2
          cases hget2
        omega)
    have hhd : (mmdf_parse_mailbox file env init p).hdrs =
        (mmdfRun file env (file.length + 2) (initLoopSt init p)).2.hdrs := by
      simp only [mmdf_parse_mailbox, if_neg (not_not_intro hst)]
      by_cases hb : (mmdfRun file env (file.length + 2)
          (initLoopSt init p)).1 = true
      · rw [if_pos hb]
      · rw [if_neg hb]
        by_cases hsg : (mmdfRun file env (file.length + 2)
            (initLoopSt init p)).2.sig = true
        · rw [if_pos hsg]
        · rw [if_neg hsg]
    rw [hhd]
    exact ⟨by omega, h2, h3⟩
  · have he : mmdf_parse_mailbox file env init p =
        { rc := -1, hdrs := init, sig := false, sigSeen := false,
          pos := p } := by
      simp [mmdf_parse_mailbox, hst]
    rw [he]
    refine ⟨le_refl _, List.take_length init, ?_⟩
    intro m r hm hget
    have hget2 : init[m]? = some r := hget
    have hmlt : m < init.length := by
      by_contra hcon
      rw [List.getElem?_eq_none (by omega)] at hget2
      cases hget2
    omega

/-- An observed interrupt makes the MMDF parse return the aborted
status with the flag cleared. -/
theorem mmdf_parse_sig (file : List Nat) (env : ParseEnv)
    (init : List Record) (p : Nat)
    (h : (mmdf_parse_mailbox file env init p).sigSeen = true) :
    (mmdf_parse_mailbox file env init p).rc = -2 ∧
    (mmdf_parse_mailbox file env init p).sig = false := by
  by_cases hst : env.statOk = true
  · simp only [mmdf_parse_mailbox, if_neg (not_not_intro hst)] at h ⊢
    by_cases hb : (mmdfRun file env (file.length + 2)
        (initLoopSt init p)).1 = true
    · rw [if_pos hb] at h
      have hcs := mmdfRun_corrupt_sig file env (file.length + 2)
        (initLoopSt init p) hb
      have hsg : (mmdfRun file env (file.length + 2)
          (initLoopSt init p)).2.sig = true := h
      rw [hcs] at hsg
      exact Bool.noConfusion hsg
    · rw [if_neg hb] at h ⊢
      by_cases hsg : (mmdfRun file env (file.length + 2)
          (initLoopSt init p)).2.sig = true
      · rw [if_pos hsg]
        exact ⟨rfl, rfl⟩
      · rw [if_neg hsg] at h
        exact Bool.noConfusion h
  · simp only [mmdf_parse_mailbox, if_pos hst] at h
    exact Bool.noConfusion h

/-- Claim C7: for every parse of an mbox or MMDF mailbox during which
the cooperative interrupt flag is observed, the parser stops, clears
the flag, and returns the aborted status (-2), while every record of
the Header Store present before the parse remains in place unchanged
(no rollback of already-consumed messages: the store only grows). -/
theorem c7_interrupt_abort (file : List Nat) (env : ParseEnv)
    (init : List Record) (p : Nat) :
    ((mbox_parse_mailbox file env init p).sigSeen = true →
      (mbox_parse_mailbox file env init p).rc = -2 ∧
      (mbox_parse_mailbox file env init p).sig = false) ∧
    init.length ≤ (mbox_parse_mailbox file env init p).hdrs.length ∧
    (mbox_parse_mailbox file env init p).hdrs.take init.length = init ∧
    ((mmdf_parse_mailbox file env init p).sigSeen = true →
      (mmdf_parse_mailbox file env init p).rc = -2 ∧
      (mmdf_parse_mailbox file env init p).sig = false) ∧
    init.length ≤ (mmdf_parse_mailbox file env init p).hdrs.length ∧
    (mmdf_parse_mailbox file env init p).hdrs.take init.length = init := by
  obtain ⟨a1, a2, _⟩ := mbox_parse_inv file env init p
  obtain ⟨b1, b2, _⟩ := mmdf_parse_inv file env init p
  exact ⟨fun h => mbox_parse_sig file env init p h, a1, a2,
    fun h => mmdf_parse_sig file env init p h, b1, b2⟩

/-- Witness for C7: an interrupt arriving at iteration 1 of an mbox
parse of fileB (after one message was consumed) and of an MMDF parse of
fileM aborts both parses with rc -2, a cleared flag, the pre-existing
record kept, and the consumed message still appended. -/
theorem c7_interrupt_abort_witness :
    (mbox_parse_mailbox fileB pEnvSig [rec0] 0).sigSeen = true ∧
    (mbox_parse_mailbox fileB pEnvSig [rec0] 0).rc = -2 ∧
    (mbox_parse_mailbox fileB pEnvSig [rec0] 0).sig = false ∧
    (mbox_parse_mailbox fileB pEnvSig [rec0] 0).hdrs.take 1 = [rec0] ∧
    (mbox_parse_mailbox fileB pEnvSig [rec0] 0).hdrs.length = 2 ∧
    (mmdf_parse_mailbox fileM pEnvMSig [rec0] 0).sigSeen = true ∧
    (mmdf_parse_mailbox fileM pEnvMSig [rec0] 0).rc = -2 ∧
    (mmdf_parse_mailbox fileM pEnvMSig [rec0] 0).sig = false ∧
    (mmdf_parse_mailbox fileM pEnvMSig [rec0] 0).hdrs.take 1 = [rec0] ∧
    (mmdf_parse_mailbox fileM pEnvMSig [rec0] 0).hdrs.length = 2 := by
  obtain ⟨mS, _, mT, -, -, -⟩ := c7_interrupt_abort fileB pEnvSig [rec0] 0
  obtain ⟨-, -, -, dS, -, dT⟩ := c7_interrupt_abort fileM pEnvMSig [rec0] 0
  have hm := mS (by decide)
  have hd := dS (by decide)
  exact ⟨by decide, hm.1, hm.2, mT, by decide, by decide, hd.1, hd.2, dT,
    by decide⟩

/-- Claim C4, counterexample: with a declared length of 3 on message 1
of fileB that fails the "From " verification, the declared length is
discarded and the boundary scan rewrites the length to 4; but the
declared line count 7 survives (pEnvB), even though the very same scan
with no declared line count derives 2 lines (pEnvC) — so the scan does
not set "both the length and the line count". -/
theorem c4_counterexample :
    ((mbox_parse_mailbox fileB pEnvB [] 0).hdrs[0]?.map
      (fun r => (r.content.length, r.lines))) = some (4, 7) ∧
    ((mbox_parse_mailbox fileB pEnvC [] 0).hdrs[0]?.map
      (fun r => (r.content.length, r.lines))) = some (4, 2) ∧
    pEnvB.hdrOracle 7 = { consumed := 2, declLen := 3, declLines := 7 } ∧
    pEnvC.hdrOracle 7 = { consumed := 2, declLen := 3, declLines := 0 } ∧
    (7 : Int) ≠ 2 := by
  refine ⟨by decide, by decide, by decide, by decide, by decide⟩

/-- Claim C4, amended: a declared positive content length is either
verified (the parse seeks to the expected boundary and keeps it,
deriving the line count by counting newlines only when none was
declared) or discarded, returning the stream to the body start with the
declared line count untouched; the later boundary fix-up overwrites a
nonzero declared line count never; and every record appended by
mbox_parse_mailbox ends with a non-negative content length. -/
theorem c4_length_resolution_amended :
    (∀ (file : List Nat) (size : Int) (bodyOff : Nat) (ph : HdrRes),
      0 < ph.declLen →
      resolveLen file size bodyOff ph = (-1, ph.declLines, bodyOff) ∨
      ((resolveLen file size bodyOff ph).1 = ph.declLen ∧
        (resolveLen file size bodyOff ph).2.1 =
          (if ph.declLines = 0
           then ((countNl file bodyOff ph.declLen.toNat : Nat) : Int)
           else ph.declLines))) ∧
    (∀ (h : Record) (loc ctr : Nat), h.lines ≠ 0 →
      (fixRecord h loc ctr).lines = h.lines) ∧
    (∀ (file : List Nat) (env : ParseEnv) (init : List Record)
      (p m : Nat) (r : Record), init.length ≤ m →
      (mbox_parse_mailbox file env init p).hdrs[m]? = some r →
      0 ≤ r.content.length) := by
  refine ⟨?_, ?_, ?_⟩
  · intro file size bodyOff ph hpos
    simp only [resolveLen]
    rw [if_pos hpos]
    split_ifs <;> first | exact Or.inl rfl | exact Or.inr ⟨rfl, rfl⟩
  · intro h loc ctr hl
    by_cases hc : h.content.length < 0 <;> simp [fixRecord, hc, hl]
  · intro file env init p m r hm hget
    exact (mbox_parse_inv file env init p).2.2 m r hm hget

/-- Witness for the amended C4: the mismatching declared length 3 of
fileB message 1 is discarded with the declared line count 7 kept and
the stream back at the body start; the boundary fix-up keeps a nonzero
line count; and the first record of the fileB parse has a non-negative
content length. -/
theorem c4_length_resolution_amended_witness :
    (resolveLen fileB 24 9 { consumed := 2, declLen := 3, declLines := 7 } =
        (-1, 7, 9) ∨
      ((resolveLen fileB 24 9
          { consumed := 2, declLen := 3, declLines := 7 }).1 = 3 ∧
        (resolveLen fileB 24 9
            { consumed := 2, declLen := 3, declLines := 7 }).2.1 =
          (if (7 : Int) = 0 then ((countNl fileB 9 (3 : Int).toNat : Nat) : Int)
           else 7))) ∧
    (fixRecord { rec0 with lines := 7 } 14 3).lines = 7 ∧
    (0 : Int) ≤
      ((mbox_parse_mailbox fileB pEnvB [] 0).hdrs.getD 0
        default).content.length := by
  refine ⟨?_, ?_, ?_⟩
  · exact c4_length_resolution_amended.1 fileB 24 9
      { consumed := 2, declLen := 3, declLines := 7 } (by decide)
  · exact c4_length_resolution_amended.2.1 { rec0 with lines := 7 } 14 3
      (by decide)
  · exact c4_length_resolution_amended.2.2 fileB pEnvB [] 0 0
      ((mbox_parse_mailbox fileB pEnvB [] 0).hdrs.getD 0 default)
      (by decide) (by decide)

end Mbox
